import Mathlib

/-!
Verification of the out-of-order RISC-V core pieces: the pipelined restoring
divider (`src/src/div_alu.py`), the reservation station (`src/src/RS.py`) and
the load/store queue (`src/lsq.py`).  The hardware model is synchronous: inside
a tick every register read observes the previous tick's committed value, and
writes are committed in program order at tick end (last write wins).  Each
`...Step` function below maps the previous-tick state plus the tick's port
inputs to the next committed state and the tick's combinational outputs.
-/

set_option linter.all false

namespace RV32Core

/-! ### Divider datapath, from DIV_ALU.build (src/src/div_alu.py)

32-bit values are `Nat` below `2 ^ 32`; `Bits`-level operations carry an
explicit `% 2 ^ 32` (or `% 2 ^ 33` for the 33-bit borrow-detect subtraction).
-/

/-- Two's-complement negation on 32 bits: the `(~x).bitcast(Int(32)) + 1`
idiom used by stages 1 and 4 of `DIV_ALU.build`. -/
def neg32 (x : Nat) : Nat := (2 ^ 32 - 1 - x % 2 ^ 32 + 1) % 2 ^ 32

/-- One iteration of the restoring-division loop in stages 2/3 of
`DIV_ALU.build` (lines 143-168 and 190-205): shift the `(remainder, quotient)`
pair left by one, subtract the divisor on 33 bits, and keep the difference
(setting the new quotient bit) exactly when no borrow occurred. -/
def divIter (d : Nat) (s : Nat × Nat) : Nat × Nat :=
  let q := s.1
  let r := s.2
  let r_shifted := (r <<< 1) % 2 ^ 32
  let q_msb := (q >>> 31) &&& 1
  let r_new := r_shifted ||| q_msb
  let q_new := (q <<< 1) % 2 ^ 32
  let diff_ext := (r_new + 2 ^ 33 - d) % 2 ^ 33
  let no_borrow := ! diff_ext.testBit 32
  let diff := diff_ext % 2 ^ 32
  if no_borrow then (q_new ||| 1, diff) else (q_new, r_new)

lemma lor_even_le_one {x b : Nat} (hx : x % 2 = 0) (hb : b ≤ 1) : x ||| b = x + b := by
  interval_cases b
  · simp
  · apply Nat.eq_of_testBit_eq
    intro i
    cases i with
    | zero =>
        have h1 : (x + 1) % 2 = 1 := by omega
        simp [Nat.testBit_lor, Nat.testBit_zero, h1]
    | succ j =>
        rw [Nat.testBit_lor, Nat.testBit_succ, Nat.testBit_succ, Nat.testBit_succ]
        have h2 : (x + 1) / 2 = x / 2 := by omega
        have h1 : (1 : Nat) / 2 = 0 := by norm_num
        rw [h2, h1, Nat.zero_testBit, Bool.or_false]

/-- Arithmetic characterisation of one restoring iteration under the bounds
that the division loop maintains. -/
theorem divIter_eq {d q r : Nat} (hd : d < 2 ^ 32) (hq : q < 2 ^ 32) (hr : r < 2 ^ 31) :
    divIter d (q, r) =
      if d ≤ 2 * r + q / 2 ^ 31 then
        (2 * q % 2 ^ 32 + 1, 2 * r + q / 2 ^ 31 - d)
      else (2 * q % 2 ^ 32, 2 * r + q / 2 ^ 31) := by
  have hb : q / 2 ^ 31 ≤ 1 := by
    have := (Nat.div_lt_iff_lt_mul (show 0 < 2 ^ 31 by norm_num)).2
      (show q < 2 * 2 ^ 31 by norm_num at hq ⊢; omega)
    omega
  have hrs : (r <<< 1) % 2 ^ 32 = 2 * r := by
    rw [Nat.shiftLeft_eq]
    have : r * 2 ^ 1 = 2 * r := by ring
    rw [this, Nat.mod_eq_of_lt (by norm_num at hr ⊢; omega)]
  have hmsb : (q >>> 31) &&& 1 = q / 2 ^ 31 := by
    rw [Nat.shiftRight_eq_div_pow, Nat.and_one_is_mod]
    omega
  have hqs : (q <<< 1) % 2 ^ 32 = 2 * q % 2 ^ 32 := by
    rw [Nat.shiftLeft_eq]
    have : q * 2 ^ 1 = 2 * q := by ring
    rw [this]
  have hrnew : (r <<< 1) % 2 ^ 32 ||| (q >>> 31) &&& 1 = 2 * r + q / 2 ^ 31 := by
    rw [hrs, hmsb]
    exact lor_even_le_one (by omega) hb
  have hqeven : 2 * q % 2 ^ 32 % 2 = 0 := by omega
  have hrnew_lt : 2 * r + q / 2 ^ 31 < 2 ^ 32 := by norm_num at hr ⊢; omega
  unfold divIter
  simp only [hrnew, hqs]
  by_cases hcase : d ≤ 2 * r + q / 2 ^ 31
  · have hdv : (2 * r + q / 2 ^ 31 + 2 ^ 33 - d) % 2 ^ 33 = 2 * r + q / 2 ^ 31 - d := by
      have h1 : 2 * r + q / 2 ^ 31 + 2 ^ 33 - d = (2 * r + q / 2 ^ 31 - d) + 2 ^ 33 := by omega
      rw [h1, Nat.add_mod_right, Nat.mod_eq_of_lt (by omega)]
    rw [hdv]
    have hbit : (2 * r + q / 2 ^ 31 - d).testBit 32 = false :=
      Nat.testBit_lt_two_pow (by norm_num at hrnew_lt ⊢; omega)
    rw [hbit]
    have hdiff : (2 * r + q / 2 ^ 31 - d) % 2 ^ 32 = 2 * r + q / 2 ^ 31 - d :=
      Nat.mod_eq_of_lt (by omega)
    have hlor : 2 * q % 2 ^ 32 ||| 1 = 2 * q % 2 ^ 32 + 1 := lor_even_le_one hqeven (le_refl 1)
    rw [Bool.not_false, if_pos rfl, hdiff, hlor, if_pos hcase]
  · have hval : 2 * r + q / 2 ^ 31 + 2 ^ 33 - d < 2 ^ 33 := by omega
    have hval2 : 2 ^ 32 ≤ 2 * r + q / 2 ^ 31 + 2 ^ 33 - d := by norm_num at hd ⊢; omega
    have hdv : (2 * r + q / 2 ^ 31 + 2 ^ 33 - d) % 2 ^ 33 =
        2 * r + q / 2 ^ 31 + 2 ^ 33 - d := Nat.mod_eq_of_lt hval
    rw [hdv]
    have hbit : (2 * r + q / 2 ^ 31 + 2 ^ 33 - d).testBit 32 = true := by
      rw [Nat.testBit_to_div_mod]
      have h1 : (2 * r + q / 2 ^ 31 + 2 ^ 33 - d) / 2 ^ 32 = 1 := by
        norm_num at hval hval2 ⊢; omega
      rw [h1]
      rfl
    rw [hbit, Bool.not_true, if_neg (by simp), if_neg hcase]

/-- One restoring iteration moves the loop invariant from `k + 1` unprocessed
dividend bits to `k` (divisor nonzero): the quotient register holds the not yet
consumed low dividend bits above the quotient bits produced so far, and the
remainder register holds the running remainder of the consumed high bits. -/
theorem divIter_inv_step {d A j k : Nat} (hd : 0 < d) (hdlt : d < 2 ^ 32)
    (hjk : j + (k + 1) = 32) (hA : A < 2 ^ 32) :
    divIter d (A % 2 ^ (k + 1) * 2 ^ j + A / 2 ^ (k + 1) / d, A / 2 ^ (k + 1) % d) =
      (A % 2 ^ k * 2 ^ (j + 1) + A / 2 ^ k / d, A / 2 ^ k % d) := by
  have hPpos : (0 : Nat) < 2 ^ j := Nat.pos_pow_of_pos _ (by norm_num)
  have hKpos : (0 : Nat) < 2 ^ k := Nat.pos_pow_of_pos _ (by norm_num)
  have hF6 : (2 : Nat) ^ k * 2 ^ j = 2 ^ 31 := by
    rw [← pow_add]
    congr 1
    omega
  have hP31 : (2 : Nat) ^ j ≤ 2 ^ 31 := Nat.pow_le_pow_right (by norm_num) (by omega)
  have hLsplit : A % 2 ^ (k + 1) = A % 2 ^ k + 2 ^ k * (A / 2 ^ k % 2) := Nat.mod_pow_succ
  have hHsplit : A / 2 ^ k = 2 * (A / 2 ^ (k + 1)) + A / 2 ^ k % 2 := by
    have h0 := Nat.div_add_mod (A / 2 ^ k) 2
    have h1 : A / 2 ^ k / 2 = A / 2 ^ (k + 1) := by
      rw [Nat.div_div_eq_div_mul, ← pow_succ]
    omega
  have hM : A % 2 ^ k < 2 ^ k := Nat.mod_lt _ hKpos
  have hHlt : A / 2 ^ (k + 1) < 2 ^ j := by
    rw [Nat.div_lt_iff_lt_mul (Nat.pos_pow_of_pos _ (by norm_num))]
    calc A < 2 ^ 32 := hA
    _ = 2 ^ j * 2 ^ (k + 1) := by rw [← pow_add]; congr 1; omega
  have hQD : A / 2 ^ (k + 1) / d ≤ A / 2 ^ (k + 1) := Nat.div_le_self _ _
  have hRD : A / 2 ^ (k + 1) % d < d := Nat.mod_lt _ hd
  have hMP : A % 2 ^ k * 2 ^ j + 2 ^ j ≤ 2 ^ 31 := by
    have h1 : (A % 2 ^ k + 1) * 2 ^ j ≤ 2 ^ k * 2 ^ j := Nat.mul_le_mul_right _ (by omega)
    rw [add_mul, one_mul] at h1
    omega
  have e1 : 2 ^ k * (A / 2 ^ k % 2) * 2 ^ j = 2 ^ 31 * (A / 2 ^ k % 2) := by
    rw [mul_right_comm, hF6]
  have hq_eq : A % 2 ^ (k + 1) * 2 ^ j + A / 2 ^ (k + 1) / d =
      2 ^ 31 * (A / 2 ^ k % 2) + (A % 2 ^ k * 2 ^ j + A / 2 ^ (k + 1) / d) := by
    rw [hLsplit, add_mul, e1]
    omega
  have hqlt : A % 2 ^ (k + 1) * 2 ^ j + A / 2 ^ (k + 1) / d < 2 ^ 32 := by omega
  have hrlt : A / 2 ^ (k + 1) % d < 2 ^ 31 := by
    have h1 : A / 2 ^ (k + 1) % d ≤ A / 2 ^ (k + 1) := Nat.mod_le _ _
    omega
  have hmsb : (A % 2 ^ (k + 1) * 2 ^ j + A / 2 ^ (k + 1) / d) / 2 ^ 31 = A / 2 ^ k % 2 := by
    rw [hq_eq, Nat.mul_add_div (by norm_num)]
    have h1 : (A % 2 ^ k * 2 ^ j + A / 2 ^ (k + 1) / d) / 2 ^ 31 = 0 :=
      Nat.div_eq_of_lt (by omega)
    omega
  have hH'eq : A / 2 ^ k =
      2 * (d * (A / 2 ^ (k + 1) / d)) + 2 * (A / 2 ^ (k + 1) % d) + A / 2 ^ k % 2 := by
    have h0 := Nat.div_add_mod (A / 2 ^ (k + 1)) d
    omega
  have e3 : A % 2 ^ k * 2 ^ (j + 1) = 2 * (A % 2 ^ k * 2 ^ j) := by
    rw [pow_succ]
    ring
  have e2 : 2 * (A % 2 ^ (k + 1) * 2 ^ j + A / 2 ^ (k + 1) / d) =
      2 * (A % 2 ^ k * 2 ^ j) + 2 * (A / 2 ^ (k + 1) / d) + A / 2 ^ k % 2 * 2 ^ 32 := by
    omega
  have hq2 : 2 * (A % 2 ^ (k + 1) * 2 ^ j + A / 2 ^ (k + 1) / d) % 2 ^ 32 =
      2 * (A % 2 ^ k * 2 ^ j) + 2 * (A / 2 ^ (k + 1) / d) := by
    rw [e2, Nat.add_mul_mod_self_right, Nat.mod_eq_of_lt (by omega)]
  rw [divIter_eq hdlt hqlt hrlt, hmsb]
  by_cases hcase : d ≤ 2 * (A / 2 ^ (k + 1) % d) + A / 2 ^ k % 2
  · have hexp : d * (2 * (A / 2 ^ (k + 1) / d) + 1) = 2 * (d * (A / 2 ^ (k + 1) / d)) + d := by
      ring
    have hu := (Nat.div_mod_unique hd (a := A / 2 ^ k)
      (d := 2 * (A / 2 ^ (k + 1) / d) + 1)
      (c := 2 * (A / 2 ^ (k + 1) % d) + A / 2 ^ k % 2 - d)).2 ⟨by omega, by omega⟩
    rw [if_pos hcase, hu.1, hu.2, hq2]
    simp only [Prod.mk.injEq, and_true]
    omega
  · have hexp : d * (2 * (A / 2 ^ (k + 1) / d)) = 2 * (d * (A / 2 ^ (k + 1) / d)) := by
      ring
    have hu := (Nat.div_mod_unique hd (a := A / 2 ^ k)
      (d := 2 * (A / 2 ^ (k + 1) / d))
      (c := 2 * (A / 2 ^ (k + 1) % d) + A / 2 ^ k % 2)).2 ⟨by omega, by omega⟩
    rw [if_neg hcase, hu.1, hu.2, hq2]
    simp only [Prod.mk.injEq, and_true]
    omega

/-- Variant of `divIter_inv_step` for a zero divisor: the subtraction never
borrows, so every produced quotient bit is `1` and the remainder register
re-assembles the dividend bit by bit. -/
theorem divIter_inv_step_zero {A j k : Nat} (hjk : j + (k + 1) = 32) (hA : A < 2 ^ 32) :
    divIter 0 (A % 2 ^ (k + 1) * 2 ^ j + (2 ^ j - 1), A / 2 ^ (k + 1)) =
      (A % 2 ^ k * 2 ^ (j + 1) + (2 ^ (j + 1) - 1), A / 2 ^ k) := by
  have hPpos : (0 : Nat) < 2 ^ j := Nat.pos_pow_of_pos _ (by norm_num)
  have hKpos : (0 : Nat) < 2 ^ k := Nat.pos_pow_of_pos _ (by norm_num)
  have hF6 : (2 : Nat) ^ k * 2 ^ j = 2 ^ 31 := by
    rw [← pow_add]
    congr 1
    omega
  have hP31 : (2 : Nat) ^ j ≤ 2 ^ 31 := Nat.pow_le_pow_right (by norm_num) (by omega)
  have hLsplit : A % 2 ^ (k + 1) = A % 2 ^ k + 2 ^ k * (A / 2 ^ k % 2) := Nat.mod_pow_succ
  have hHsplit : A / 2 ^ k = 2 * (A / 2 ^ (k + 1)) + A / 2 ^ k % 2 := by
    have h0 := Nat.div_add_mod (A / 2 ^ k) 2
    have h1 : A / 2 ^ k / 2 = A / 2 ^ (k + 1) := by
      rw [Nat.div_div_eq_div_mul, ← pow_succ]
    omega
  have hM : A % 2 ^ k < 2 ^ k := Nat.mod_lt _ hKpos
  have hHlt : A / 2 ^ (k + 1) < 2 ^ j := by
    rw [Nat.div_lt_iff_lt_mul (Nat.pos_pow_of_pos _ (by norm_num))]
    calc A < 2 ^ 32 := hA
    _ = 2 ^ j * 2 ^ (k + 1) := by rw [← pow_add]; congr 1; omega
  have hMP : A % 2 ^ k * 2 ^ j + 2 ^ j ≤ 2 ^ 31 := by
    have h1 : (A % 2 ^ k + 1) * 2 ^ j ≤ 2 ^ k * 2 ^ j := Nat.mul_le_mul_right _ (by omega)
    rw [add_mul, one_mul] at h1
    omega
  have e1 : 2 ^ k * (A / 2 ^ k % 2) * 2 ^ j = 2 ^ 31 * (A / 2 ^ k % 2) := by
    rw [mul_right_comm, hF6]
  have hq_eq : A % 2 ^ (k + 1) * 2 ^ j + (2 ^ j - 1) =
      2 ^ 31 * (A / 2 ^ k % 2) + (A % 2 ^ k * 2 ^ j + (2 ^ j - 1)) := by
    rw [hLsplit, add_mul, e1]
    omega
  have hqlt : A % 2 ^ (k + 1) * 2 ^ j + (2 ^ j - 1) < 2 ^ 32 := by omega
  have hrlt : A / 2 ^ (k + 1) < 2 ^ 31 := by omega
  have hmsb : (A % 2 ^ (k + 1) * 2 ^ j + (2 ^ j - 1)) / 2 ^ 31 = A / 2 ^ k % 2 := by
    rw [hq_eq, Nat.mul_add_div (by norm_num)]
    have h1 : (A % 2 ^ k * 2 ^ j + (2 ^ j - 1)) / 2 ^ 31 = 0 :=
      Nat.div_eq_of_lt (by omega)
    omega
  have e3 : A % 2 ^ k * 2 ^ (j + 1) = 2 * (A % 2 ^ k * 2 ^ j) := by
    rw [pow_succ]
    ring
  have e4 : (2 : Nat) ^ (j + 1) = 2 * 2 ^ j := by
    rw [pow_succ]
    ring
  have e2 : 2 * (A % 2 ^ (k + 1) * 2 ^ j + (2 ^ j - 1)) =
      2 * (A % 2 ^ k * 2 ^ j) + 2 * 2 ^ j - 2 + A / 2 ^ k % 2 * 2 ^ 32 := by
    omega
  have hq2 : 2 * (A % 2 ^ (k + 1) * 2 ^ j + (2 ^ j - 1)) % 2 ^ 32 =
      2 * (A % 2 ^ k * 2 ^ j) + 2 * 2 ^ j - 2 := by
    rw [e2]
    have h5 : 2 * (A % 2 ^ k * 2 ^ j) + 2 * 2 ^ j - 2 + A / 2 ^ k % 2 * 2 ^ 32 =
        2 * (A % 2 ^ k * 2 ^ j) + 2 * 2 ^ j - 2 + 2 ^ 32 * (A / 2 ^ k % 2) := by omega
    rw [h5, Nat.add_mul_mod_self_left, Nat.mod_eq_of_lt (by omega)]
  rw [divIter_eq (by norm_num) hqlt hrlt, hmsb]
  rw [if_pos (Nat.zero_le _), hq2]
  simp only [Prod.mk.injEq]
  omega

/-- After `n ≤ 32` restoring iterations started on `(dividend, 0)`, the pair
holds the invariant form over the top `n` dividend bits (divisor nonzero). -/
theorem divIter_formula {d A : Nat} (hd : 0 < d) (hdlt : d < 2 ^ 32) (hA : A < 2 ^ 32) :
    ∀ n, n ≤ 32 → (divIter d)^[n] (A, 0) =
      (A % 2 ^ (32 - n) * 2 ^ n + A / 2 ^ (32 - n) / d, A / 2 ^ (32 - n) % d) := by
  intro n
  induction n with
  | zero =>
      intro _
      simp only [Function.iterate_zero, id_eq, Nat.sub_zero, pow_zero, mul_one]
      rw [Nat.mod_eq_of_lt hA, Nat.div_eq_of_lt hA]
      simp
  | succ m ih =>
      intro hm
      rw [Function.iterate_succ_apply', ih (by omega)]
      have hk : 32 - m = (32 - (m + 1)) + 1 := by omega
      rw [hk]
      exact divIter_inv_step hd hdlt (by omega) hA

/-- Zero-divisor analogue of `divIter_formula`. -/
theorem divIter_formula_zero {A : Nat} (hA : A < 2 ^ 32) :
    ∀ n, n ≤ 32 → (divIter 0)^[n] (A, 0) =
      (A % 2 ^ (32 - n) * 2 ^ n + (2 ^ n - 1), A / 2 ^ (32 - n)) := by
  intro n
  induction n with
  | zero =>
      intro _
      simp only [Function.iterate_zero, id_eq, Nat.sub_zero, pow_zero, mul_one]
      rw [Nat.mod_eq_of_lt hA, Nat.div_eq_of_lt hA]
      simp
  | succ m ih =>
      intro hm
      rw [Function.iterate_succ_apply', ih (by omega)]
      have hk : 32 - m = (32 - (m + 1)) + 1 := by omega
      rw [hk]
      exact divIter_inv_step_zero (by omega) hA

/-- The full 32-iteration restoring loop computes Euclidean quotient and
remainder of the (nonzero) divisor. -/
theorem divIter32 {d A : Nat} (hd : 0 < d) (hdlt : d < 2 ^ 32) (hA : A < 2 ^ 32) :
    (divIter d)^[32] (A, 0) = (A / d, A % d) := by
  have h := divIter_formula hd hdlt hA 32 (le_refl 32)
  simp only [Nat.sub_self, pow_zero, Nat.mod_one, Nat.div_one, zero_mul, zero_add] at h
  exact h

/-- With a zero divisor the loop produces an all-ones quotient and hands the
dividend back in the remainder register. -/
theorem divIter32_zero {A : Nat} (hA : A < 2 ^ 32) :
    (divIter 0)^[32] (A, 0) = (2 ^ 32 - 1, A) := by
  have h := divIter_formula_zero hA 32 (le_refl 32)
  simp only [Nat.sub_self, pow_zero, Nat.mod_one, Nat.div_one, zero_mul, zero_add] at h
  exact h

/-! ### Divider pipeline registers and step function -/

/-- Per-stage registers carried by stages 1-3 of the divider pipeline
(quotient, remainder, divisor plus the metadata latched alongside). -/
structure DivFlow where
  quotient : Nat
  remainder : Nat
  divisor : Nat
  addr : Nat
  robIndex : Nat
  getRemainder : Bool
  dividendNeg : Bool
  divisorNeg : Bool
  divByZero : Bool
deriving DecidableEq

/-- Stage-4 registers: like `DivFlow` but with no divisor register. -/
structure DivStage4 where
  quotient : Nat
  remainder : Nat
  addr : Nat
  robIndex : Nat
  getRemainder : Bool
  dividendNeg : Bool
  divisorNeg : Bool
  divByZero : Bool
deriving DecidableEq

/-- All divider pipeline registers (the `stageN_*` `RegArray`s). -/
structure DivState where
  stage1Valid : Bool
  stage1 : DivFlow
  stage2Valid : Bool
  stage2 : DivFlow
  stage3Valid : Bool
  stage3 : DivFlow
  stage4Valid : Bool
  stage4 : DivStage4
deriving DecidableEq

/-- The divider's input ports for one tick (`DIV_ALU.pop_all_ports`). -/
structure DivInput where
  valid : Bool
  robIndex : Nat
  aluA : Nat
  aluB : Nat
  calcType : Nat
  pcAddr : Nat
  getRemainder : Bool
  rs1Sign : Bool
  rs2Sign : Bool
  clear : Bool
deriving DecidableEq

/-- Stage 1 of `DIV_ALU.build` (lines 106-131): sign detection, absolute
values, divide-by-zero latch. -/
def divStage1 (inp : DivInput) : DivFlow :=
  let dividendNeg := inp.rs1Sign && inp.aluA.testBit 31
  let divisorNeg := inp.rs2Sign && inp.aluB.testBit 31
  let dividendAbs := if dividendNeg then neg32 inp.aluA else inp.aluA
  let divisorAbs := if divisorNeg then neg32 inp.aluB else inp.aluB
  { quotient := dividendAbs
    remainder := 0
    divisor := divisorAbs
    addr := inp.pcAddr
    robIndex := inp.robIndex
    getRemainder := inp.getRemainder
    dividendNeg := dividendNeg
    divisorNeg := divisorNeg
    divByZero := inp.aluB == 0 }

/-- Stages 2 and 3 of `DIV_ALU.build`: sixteen restoring iterations on the
latched `(quotient, remainder)` pair; all other registers pass through. -/
def divStage16 (f : DivFlow) : DivFlow :=
  let qr := (divIter f.divisor)^[16] (f.quotient, f.remainder)
  { f with quotient := qr.1, remainder := qr.2 }

/-- Stage 4 of `DIV_ALU.build` (lines 219-248): sign correction and the
divide-by-zero override (`quotient = all-ones`, `remainder = raw remainder`). -/
def divStage4Calc (f : DivFlow) : DivStage4 :=
  let quotientNeg := xor f.dividendNeg f.divisorNeg
  let remainderNeg := f.dividendNeg
  let finalQuotient := if quotientNeg then neg32 f.quotient else f.quotient
  let finalRemainder := if remainderNeg then neg32 f.remainder else f.remainder
  { quotient := if f.divByZero then 2 ^ 32 - 1 else finalQuotient
    remainder := if f.divByZero then f.remainder else finalRemainder
    addr := f.addr
    robIndex := f.robIndex
    getRemainder := f.getRemainder
    dividendNeg := f.dividendNeg
    divisorNeg := f.divisorNeg
    divByZero := f.divByZero }

/-- One tick of the divider: every stage reads the previous tick's registers;
stage contents latch only when the upstream stage was valid, and each stage's
valid bit is the upstream valid masked by `clear`. -/
def divStep (st : DivState) (inp : DivInput) : DivState :=
  { stage1Valid := inp.valid && !inp.clear
    stage1 := if inp.valid then divStage1 inp else st.stage1
    stage2Valid := st.stage1Valid && !inp.clear
    stage2 := if st.stage1Valid then divStage16 st.stage1 else st.stage2
    stage3Valid := st.stage2Valid && !inp.clear
    stage3 := if st.stage2Valid then divStage16 st.stage2 else st.stage3
    stage4Valid := st.stage3Valid && !inp.clear
    stage4 := if st.stage3Valid then divStage4Calc st.stage3 else st.stage4 }

/-- The result bundle driven on `signal_array` / `result_array` /
`rob_index_array` / `pc_result_array` (lines 251-259), as read during a tick
whose incoming flush line is `clear`. -/
structure DivOut where
  valid : Bool
  result : Nat
  robIndex : Nat
  pcResult : Nat
deriving DecidableEq

/-- Combinational output of the divider on a tick, reading the previous
tick's stage-4 registers. -/
def divOutput (st : DivState) (clear : Bool) : DivOut :=
  { valid := st.stage4Valid && !clear
    result := if st.stage4.getRemainder then st.stage4.remainder else st.stage4.quotient
    robIndex := st.stage4.robIndex
    pcResult := (st.stage4.addr + 4) % 2 ^ 32 }

/-- Signed reading of a 32-bit register value. -/
def toSigned (x : Nat) : Int := if x < 2 ^ 31 then (x : Int) else (x : Int) - 2 ^ 32

/-- The all-zero divider state (reset values of the `RegArray`s). -/
def divInit : DivState :=
  { stage1Valid := false
    stage1 := ⟨0, 0, 0, 0, 0, false, false, false, false⟩
    stage2Valid := false
    stage2 := ⟨0, 0, 0, 0, 0, false, false, false, false⟩
    stage3Valid := false
    stage3 := ⟨0, 0, 0, 0, 0, false, false, false, false⟩
    stage4Valid := false
    stage4 := ⟨0, 0, 0, 0, false, false, false, false⟩ }

lemma neg32_lt (x : Nat) : neg32 x < 2 ^ 32 := by
  unfold neg32
  omega

lemma neg32_eq {x : Nat} (hx : x < 2 ^ 32) : neg32 x = (2 ^ 32 - x) % 2 ^ 32 := by
  unfold neg32
  omega

lemma neg32_eq_of_pos {x : Nat} (h0 : 0 < x) (hx : x < 2 ^ 32) : neg32 x = 2 ^ 32 - x := by
  unfold neg32
  omega

lemma testBit31_iff {x : Nat} (hx : x < 2 ^ 32) : x.testBit 31 = true ↔ 2 ^ 31 ≤ x := by
  rw [Nat.testBit_to_div_mod, decide_eq_true_eq]
  omega

lemma toSigned_of_lt {x : Nat} (hx : x < 2 ^ 31) : toSigned x = (x : Int) := by
  unfold toSigned
  rw [if_pos hx]

lemma toSigned_of_ge {x : Nat} (h1 : 2 ^ 31 ≤ x) : toSigned x = (x : Int) - 2 ^ 32 := by
  unfold toSigned
  rw [if_neg (by omega)]

lemma toSigned_neg32 {x : Nat} (hx : x ≤ 2 ^ 31) : toSigned (neg32 x) = -(x : Int) := by
  rcases Nat.eq_zero_or_pos x with h0 | h0
  · subst h0
    have : neg32 0 = 0 := by unfold neg32; norm_num
    rw [this]
    unfold toSigned
    norm_num
  · rw [neg32_eq_of_pos h0 (by omega)]
    unfold toSigned
    rw [if_neg (by omega)]
    push_cast
    omega

/-- Whichever value the divisor has, the quotient of a magnitude at most
`2 ^ 31` stays below `2 ^ 31` unless the magnitude is exactly `2 ^ 31` and the
divisor is one (the signed-overflow pair). -/
lemma mag_div_lt {Am Bm : Nat} (hAm : Am ≤ 2 ^ 31) (hBm : 0 < Bm)
    (hne : ¬(Am = 2 ^ 31 ∧ Bm = 1)) : Am / Bm < 2 ^ 31 := by
  by_cases h1 : Bm = 1
  · subst h1
    rw [Nat.div_one]
    omega
  · have h2 : Am / Bm ≤ Am / 2 := Nat.div_le_div_left (by omega) (by norm_num)
    have h3 : Am / 2 ≤ 2 ^ 31 / 2 := Nat.div_le_div_right hAm
    norm_num at h3 ⊢
    omega

/-- Feeding a valid bundle and then stepping three more ticks with the flush
line low lands the bundle's stage-4 values in the stage-4 registers. -/
theorem divStep4_stage4 (st : DivState) (i1 i2 i3 i4 : DivInput)
    (hv : i1.valid = true) (hc1 : i1.clear = false) (hc2 : i2.clear = false)
    (hc3 : i3.clear = false) (hc4 : i4.clear = false) :
    (divStep (divStep (divStep (divStep st i1) i2) i3) i4).stage4Valid = true ∧
    (divStep (divStep (divStep (divStep st i1) i2) i3) i4).stage4 =
      divStage4Calc (divStage16 (divStage16 (divStage1 i1))) := by
  simp [divStep, hv, hc1, hc2, hc3, hc4]

/-- The two 16-iteration stages compose to the full 32-iteration loop. -/
theorem divStage16_twice (f : DivFlow) :
    (divStage16 (divStage16 f)).quotient =
        ((divIter f.divisor)^[32] (f.quotient, f.remainder)).1 ∧
    (divStage16 (divStage16 f)).remainder =
        ((divIter f.divisor)^[32] (f.quotient, f.remainder)).2 ∧
    (divStage16 (divStage16 f)).divisor = f.divisor ∧
    (divStage16 (divStage16 f)).addr = f.addr ∧
    (divStage16 (divStage16 f)).robIndex = f.robIndex ∧
    (divStage16 (divStage16 f)).getRemainder = f.getRemainder ∧
    (divStage16 (divStage16 f)).dividendNeg = f.dividendNeg ∧
    (divStage16 (divStage16 f)).divisorNeg = f.divisorNeg ∧
    (divStage16 (divStage16 f)).divByZero = f.divByZero := by
  have h32 : (32 : Nat) = 16 + 16 := rfl
  rw [h32, Function.iterate_add_apply]
  simp [divStage16]

/-- Signed-division facts about the magnitude quotient/remainder and the
stage-4 sign correction, for any sign combination except the overflow pair
`(-2^31) / (-1)`.  `na`/`nb` are the latched `dividend_neg`/`divisor_neg`
bits. -/
theorem divCore_signed {a b : Nat} (na nb : Bool)
    (ha : a < 2 ^ 32) (hb : b < 2 ^ 32) (hb0 : b ≠ 0)
    (hna : na = true ↔ 2 ^ 31 ≤ a) (hnb : nb = true ↔ 2 ^ 31 ≤ b)
    (hno : ¬(a = 2 ^ 31 ∧ b = 2 ^ 32 - 1)) :
    ∃ q r : Nat, q < 2 ^ 32 ∧ r < 2 ^ 32 ∧
      toSigned a = toSigned q * toSigned b + toSigned r ∧
      (toSigned r).natAbs < (toSigned b).natAbs ∧
      (toSigned r = 0 ∨ 0 < toSigned r ∧ 0 < toSigned a ∨
        toSigned r < 0 ∧ toSigned a < 0) ∧
      q = (if xor na nb then
            neg32 ((if na then neg32 a else a) / (if nb then neg32 b else b))
          else (if na then neg32 a else a) / (if nb then neg32 b else b)) ∧
      r = (if na then
            neg32 ((if na then neg32 a else a) % (if nb then neg32 b else b))
          else (if na then neg32 a else a) % (if nb then neg32 b else b)) := by
  cases na with
  | false =>
    simp only [Bool.false_eq_true, false_iff, not_le] at hna
    cases nb with
    | false =>
      simp only [Bool.false_eq_true, false_iff, not_le] at hnb
      simp only [Bool.xor_false, if_false, Bool.false_eq_true, if_neg]
      refine ⟨a / b, a % b, by have := Nat.div_le_self a b; omega,
        by have := Nat.mod_le a b; omega, ?_, ?_, ?_, rfl, rfl⟩
      · have hdm := Nat.div_add_mod a b
        rw [toSigned_of_lt hna, toSigned_of_lt (show a / b < 2 ^ 31 by
            have := Nat.div_le_self a b; omega),
          toSigned_of_lt hnb, toSigned_of_lt (show a % b < 2 ^ 31 by
            have := Nat.mod_lt a (show 0 < b by omega); omega)]
        have hInt : (b : Int) * (a / b : Nat) + (a % b : Nat) = a := by exact_mod_cast hdm
        linear_combination -hInt
      · rw [toSigned_of_lt (show a % b < 2 ^ 31 by
            have := Nat.mod_lt a (show 0 < b by omega); omega), toSigned_of_lt hnb]
        rw [Int.natAbs_ofNat, Int.natAbs_ofNat]
        exact Nat.mod_lt a (by omega)
      · rcases Nat.eq_zero_or_pos (a % b) with h0 | h0
        · left
          rw [h0, toSigned_of_lt (by norm_num)]
          rfl
        · right; left
          have hapos : 0 < a := by
            rcases Nat.eq_zero_or_pos a with rfl | h
            · simp at h0
            · exact h
          rw [toSigned_of_lt (show a % b < 2 ^ 31 by
              have := Nat.mod_lt a (show 0 < b by omega); omega), toSigned_of_lt hna]
          constructor <;> exact_mod_cast (by omega : (0 : Nat) < _)
    | true =>
      simp only [true_iff] at hnb
      have hBm : neg32 b = 2 ^ 32 - b := neg32_eq_of_pos (by omega) hb
      have hBmpos : 0 < neg32 b := by omega
      have hBmle : neg32 b ≤ 2 ^ 31 := by omega
      simp only [Bool.xor_true, Bool.not_false, if_true, if_false, Bool.false_eq_true,
        if_neg, Bool.false_xor]
      refine ⟨neg32 (a / neg32 b), a % neg32 b, neg32_lt _,
        by have := Nat.mod_le a (neg32 b); omega, ?_, ?_, ?_, rfl, rfl⟩
      · have hdm := Nat.div_add_mod a (neg32 b)
        have hqle : a / neg32 b ≤ 2 ^ 31 := by
          have := Nat.div_le_self a (neg32 b)
          omega
        have hrlt : a % neg32 b < 2 ^ 31 := by
          have := Nat.mod_lt a hBmpos
          omega
        rw [toSigned_of_lt hna, toSigned_neg32 hqle, toSigned_of_ge hnb, toSigned_of_lt hrlt]
        have hInt : ((2 : Int) ^ 32 - b) * (a / neg32 b : Nat) + (a % neg32 b : Nat) = a := by
          have h2 : (neg32 b : Int) * (a / neg32 b : Nat) + (a % neg32 b : Nat) = a := by
            exact_mod_cast hdm
          have h3 : (neg32 b : Int) = 2 ^ 32 - b := by omega
          rw [h3] at h2
          exact h2
        linear_combination -hInt
      · have hrlt : a % neg32 b < 2 ^ 31 := by
          have := Nat.mod_lt a hBmpos
          omega
        rw [toSigned_of_lt hrlt, toSigned_of_ge hnb, Int.natAbs_ofNat]
        have h4 : ((b : Int) - 2 ^ 32).natAbs = 2 ^ 32 - b := by
          rw [Int.natAbs_eq_iff]
          right
          omega
        rw [h4]
        have := Nat.mod_lt a hBmpos
        omega
      · rcases Nat.eq_zero_or_pos (a % neg32 b) with h0 | h0
        · left
          rw [h0, toSigned_of_lt (by norm_num)]
          rfl
        · right; left
          have hrlt : a % neg32 b < 2 ^ 31 := by
            have := Nat.mod_lt a hBmpos
            omega
          have hapos : 0 < a := by
            rcases Nat.eq_zero_or_pos a with rfl | h
            · simp at h0
            · exact h
          rw [toSigned_of_lt hrlt, toSigned_of_lt hna]
          constructor <;> exact_mod_cast (by omega : (0 : Nat) < _)
  | true =>
    simp only [true_iff] at hna
    have hAm : neg32 a = 2 ^ 32 - a := neg32_eq_of_pos (by omega) ha
    have hAmle : neg32 a ≤ 2 ^ 31 := by omega
    cases nb with
    | false =>
      simp only [Bool.false_eq_true, false_iff, not_le] at hnb
      simp only [Bool.xor_false, Bool.true_xor, Bool.not_false, if_true]
      have hbpos : (0 : Nat) < b := by omega
      refine ⟨neg32 (neg32 a / b), neg32 (neg32 a % b), neg32_lt _, neg32_lt _, ?_, ?_, ?_,
        rfl, rfl⟩
      · have hdm := Nat.div_add_mod (neg32 a) b
        have hqle : neg32 a / b ≤ 2 ^ 31 := by
          have := Nat.div_le_self (neg32 a) b
          omega
        have hrle : neg32 a % b ≤ 2 ^ 31 := by
          have := Nat.mod_lt (neg32 a) hbpos
          omega
        rw [toSigned_of_ge hna, toSigned_neg32 hqle, toSigned_of_lt hnb, toSigned_neg32 hrle]
        have hInt : (b : Int) * (neg32 a / b : Nat) + (neg32 a % b : Nat) = 2 ^ 32 - a := by
          have h2 : (b : Int) * (neg32 a / b : Nat) + (neg32 a % b : Nat) = neg32 a := by
            exact_mod_cast hdm
          have h3 : (neg32 a : Int) = 2 ^ 32 - a := by omega
          rw [h3] at h2
          exact h2
        linear_combination hInt
      · have hrlt : neg32 a % b < b := Nat.mod_lt _ hbpos
        rw [toSigned_neg32 (by omega), toSigned_of_lt hnb, Int.natAbs_neg, Int.natAbs_ofNat,
          Int.natAbs_ofNat]
        exact hrlt
      · rcases Nat.eq_zero_or_pos (neg32 a % b) with h0 | h0
        · left
          rw [h0]
          rw [show neg32 0 = 0 by unfold neg32; norm_num, toSigned_of_lt (by norm_num)]
          rfl
        · right; right
          have hrlt : neg32 a % b < b := Nat.mod_lt _ hbpos
          rw [toSigned_neg32 (by omega), toSigned_of_ge hna]
          constructor
          · omega
          · omega
    | true =>
      simp only [true_iff] at hnb
      have hBm : neg32 b = 2 ^ 32 - b := neg32_eq_of_pos (by omega) hb
      have hBmpos : 0 < neg32 b := by omega
      have hBmle : neg32 b ≤ 2 ^ 31 := by omega
      simp only [Bool.xor_true, Bool.not_true, if_true, if_false, Bool.false_eq_true, if_neg]
      have hqlt : neg32 a / neg32 b < 2 ^ 31 := by
        apply mag_div_lt hAmle hBmpos
        rintro ⟨h1, h2⟩
        exact hno ⟨by omega, by omega⟩
      refine ⟨neg32 a / neg32 b, neg32 (neg32 a % neg32 b), by omega, neg32_lt _, ?_, ?_, ?_,
        rfl, rfl⟩
      · have hdm := Nat.div_add_mod (neg32 a) (neg32 b)
        have hrle : neg32 a % neg32 b ≤ 2 ^ 31 := by
          have := Nat.mod_lt (neg32 a) hBmpos
          omega
        rw [toSigned_of_ge hna, toSigned_of_lt hqlt, toSigned_of_ge hnb, toSigned_neg32 hrle]
        have hInt : ((2 : Int) ^ 32 - b) * (neg32 a / neg32 b : Nat) +
            (neg32 a % neg32 b : Nat) = 2 ^ 32 - a := by
          have h2 : (neg32 b : Int) * (neg32 a / neg32 b : Nat) +
              (neg32 a % neg32 b : Nat) = neg32 a := by exact_mod_cast hdm
          have h3 : (neg32 b : Int) = 2 ^ 32 - b := by omega
          have h4 : (neg32 a : Int) = 2 ^ 32 - a := by omega
          rw [h3, h4] at h2
          exact h2
        linear_combination hInt
      · have hrlt : neg32 a % neg32 b < neg32 b := Nat.mod_lt _ hBmpos
        rw [toSigned_neg32 (by omega), toSigned_of_ge hnb, Int.natAbs_neg, Int.natAbs_ofNat]
        have h4 : ((b : Int) - 2 ^ 32).natAbs = 2 ^ 32 - b := by
          rw [Int.natAbs_eq_iff]
          right
          omega
        rw [h4]
        omega
      · rcases Nat.eq_zero_or_pos (neg32 a % neg32 b) with h0 | h0
        · left
          rw [h0]
          rw [show neg32 0 = 0 by unfold neg32; norm_num, toSigned_of_lt (by norm_num)]
          rfl
        · right; right
          have hrlt : neg32 a % neg32 b < neg32 b := Nat.mod_lt _ hBmpos
          rw [toSigned_neg32 (by omega), toSigned_of_ge hna]
          constructor
          · omega
          · omega

lemma divByZero_false {b : Nat} (hb0 : b ≠ 0) : (b == 0) = false := by
  simp [hb0]

lemma divisorAbs_pos {b : Nat} (nb : Bool) (hb : b < 2 ^ 32) (hb0 : b ≠ 0)
    (hnb : nb = true ↔ 2 ^ 31 ≤ b) : 0 < (if nb then neg32 b else b) := by
  cases nb with
  | false => simpa using Nat.pos_of_ne_zero hb0
  | true =>
    simp only [if_true]
    rw [neg32_eq_of_pos (Nat.pos_of_ne_zero hb0) hb]
    simp only [true_iff] at hnb
    omega

/-- C1 (amended), main theorem: a valid operand pair entering the divider with
the flush line low for four ticks produces, on the fourth following tick, a
quotient/remainder pair satisfying the Euclidean round-trip identity, in
unsigned mode for every nonzero divisor and in signed mode for every pair
except the signed-overflow pair `0x80000000 / 0xFFFFFFFF`; the delivered
result is the quotient when `get_remainder = 0` and the remainder when
`get_remainder = 1`. -/
theorem div_round_trip (st : DivState) (i1 i2 i3 i4 : DivInput)
    (hv : i1.valid = true) (hc1 : i1.clear = false) (hc2 : i2.clear = false)
    (hc3 : i3.clear = false) (hc4 : i4.clear = false)
    (ha : i1.aluA < 2 ^ 32) (hb : i1.aluB < 2 ^ 32) :
    (divOutput (divStep (divStep (divStep (divStep st i1) i2) i3) i4) false).valid = true ∧
    (i1.rs1Sign = false → i1.rs2Sign = false → i1.aluB ≠ 0 →
      i1.aluA = i1.aluB * (i1.aluA / i1.aluB) + i1.aluA % i1.aluB ∧
      i1.aluA % i1.aluB < i1.aluB ∧
      (divOutput (divStep (divStep (divStep (divStep st i1) i2) i3) i4) false).result =
        if i1.getRemainder then i1.aluA % i1.aluB else i1.aluA / i1.aluB) ∧
    (i1.rs1Sign = true → i1.rs2Sign = true → i1.aluB ≠ 0 →
      ¬(i1.aluA = 2 ^ 31 ∧ i1.aluB = 2 ^ 32 - 1) →
      ∃ q r : Nat, q < 2 ^ 32 ∧ r < 2 ^ 32 ∧
        toSigned i1.aluA = toSigned q * toSigned i1.aluB + toSigned r ∧
        (toSigned r).natAbs < (toSigned i1.aluB).natAbs ∧
        (toSigned r = 0 ∨ 0 < toSigned r ∧ 0 < toSigned i1.aluA ∨
          toSigned r < 0 ∧ toSigned i1.aluA < 0) ∧
        (divOutput (divStep (divStep (divStep (divStep st i1) i2) i3) i4) false).result =
          if i1.getRemainder then r else q) := by
  obtain ⟨h4v, h4⟩ := divStep4_stage4 st i1 i2 i3 i4 hv hc1 hc2 hc3 hc4
  obtain ⟨hGq, hGr, hGd, -, -, hGget, hGdn, hGvn, hGdz⟩ := divStage16_twice (divStage1 i1)
  refine ⟨by simp [divOutput, h4v], ?_, ?_⟩
  · intro hs1 hs2 hb0
    have hbpos : 0 < i1.aluB := Nat.pos_of_ne_zero hb0
    have hf : divStage1 i1 = ⟨i1.aluA, 0, i1.aluB, i1.pcAddr, i1.robIndex,
        i1.getRemainder, false, false, false⟩ := by
      simp [divStage1, hs1, hs2, divByZero_false hb0]
    rw [hf] at hGq hGr hGd hGget hGdn hGvn hGdz
    simp only at hGq hGr hGd hGget hGdn hGvn hGdz
    rw [divIter32 hbpos hb ha] at hGq hGr
    refine ⟨(Nat.div_add_mod i1.aluA i1.aluB).symm, Nat.mod_lt _ hbpos, ?_⟩
    simp only [divOutput, h4, hf]
    simp [divStage4Calc, hGq, hGr, hGd, hGget, hGdn, hGvn, hGdz]
  · intro hs1 hs2 hb0 hno
    have hna := testBit31_iff ha
    have hnb := testBit31_iff hb
    obtain ⟨q, r, hqlt, hrlt, heqn, habs, hsgn, hqdef, hrdef⟩ :=
      divCore_signed (i1.aluA.testBit 31) (i1.aluB.testBit 31) ha hb hb0 hna hnb hno
    refine ⟨q, r, hqlt, hrlt, heqn, habs, hsgn, ?_⟩
    have hf : divStage1 i1 = ⟨if i1.aluA.testBit 31 then neg32 i1.aluA else i1.aluA, 0,
        if i1.aluB.testBit 31 then neg32 i1.aluB else i1.aluB, i1.pcAddr, i1.robIndex,
        i1.getRemainder, i1.aluA.testBit 31, i1.aluB.testBit 31, false⟩ := by
      simp [divStage1, hs1, hs2, divByZero_false hb0]
    rw [hf] at hGq hGr hGd hGget hGdn hGvn hGdz
    simp only at hGq hGr hGd hGget hGdn hGvn hGdz
    have hBmpos : 0 < (if i1.aluB.testBit 31 then neg32 i1.aluB else i1.aluB) :=
      divisorAbs_pos _ hb hb0 hnb
    have hBmlt : (if i1.aluB.testBit 31 then neg32 i1.aluB else i1.aluB) < 2 ^ 32 := by
      by_cases h : i1.aluB.testBit 31 = true
      · rw [if_pos h]
        exact neg32_lt _
      · rw [if_neg h]
        exact hb
    have hAmlt : (if i1.aluA.testBit 31 then neg32 i1.aluA else i1.aluA) < 2 ^ 32 := by
      by_cases h : i1.aluA.testBit 31 = true
      · rw [if_pos h]
        exact neg32_lt _
      · rw [if_neg h]
        exact ha
    rw [divIter32 hBmpos hBmlt hAmlt] at hGq hGr
    simp only [divOutput, h4, hf]
    simp only [divStage4Calc, hGq, hGr, hGd, hGget, hGdn, hGvn, hGdz]
    rw [hqdef, hrdef]
    simp

/-- An idle input bundle: no valid operand, flush line low. -/
def divNop : DivInput := ⟨false, 0, 0, 0, 0, 0, false, false, false, false⟩

/-- The signed-overflow operand pair `0x80000000 / 0xFFFFFFFF`
(`-2^31 / -1`), in both result flavours. -/
def divCexIn (gr : Bool) : DivInput :=
  ⟨true, 1, 0x80000000, 0xFFFFFFFF, 0, 0, gr, true, true, false⟩

set_option maxRecDepth 1000000 in
/-- C1 counterexample: on the signed-overflow pair `-2^31 / -1` the divider
delivers quotient `0x80000000` and remainder `0`, and the claimed identity
`a = q * b + r` fails over the signed integers (`-2^31 ≠ (-2^31)·(-1) + 0`). -/
theorem div_round_trip_cex :
    (divOutput (divStep (divStep (divStep (divStep divInit (divCexIn false))
        divNop) divNop) divNop) false).result = 0x80000000 ∧
    (divOutput (divStep (divStep (divStep (divStep divInit (divCexIn true))
        divNop) divNop) divNop) false).result = 0 ∧
    ¬ (toSigned 0x80000000 =
        toSigned (divOutput (divStep (divStep (divStep (divStep divInit (divCexIn false))
            divNop) divNop) divNop) false).result * toSigned 0xFFFFFFFF +
        toSigned (divOutput (divStep (divStep (divStep (divStep divInit (divCexIn true))
            divNop) divNop) divNop) false).result) := by
  decide

/-- A divide-by-zero bundle with a negative signed dividend `0xFFFFFFFE`
(`-2`). -/
def divZeroIn (gr : Bool) : DivInput :=
  ⟨true, 1, 0xFFFFFFFE, 0, 0, 0, gr, true, false, false⟩

set_option maxRecDepth 1000000 in
/-- C2, divergence witness: dividing the signed dividend `0xFFFFFFFE` (`-2`)
by zero delivers remainder `2` (the raw stage-3 remainder, which equals the
dividend's absolute value), not the dividend `0xFFFFFFFE` itself as the
code's own comment (`remainder = dividend`) and the RISC-V M extension
require; the quotient flavour does deliver the all-ones word. -/
theorem div_by_zero_raw_remainder :
    (divOutput (divStep (divStep (divStep (divStep divInit (divZeroIn true))
        divNop) divNop) divNop) false).result = 2 ∧
    (divOutput (divStep (divStep (divStep (divStep divInit (divZeroIn false))
        divNop) divNop) divNop) false).result = 0xFFFFFFFF ∧
    (2 : Nat) ≠ 0xFFFFFFFE := by
  decide

/-- C7: the divider's latency is exactly four ticks.  A valid bundle accepted
while the flush line stays low for its four in-flight ticks yields a valid
output bundle with its `rob_index` and `pc + 4` on the fourth following tick;
the outputs of the three intermediate ticks are whatever the pre-existing
pipeline contents produce and do not depend on the new bundle, and the three
follow-up inputs are arbitrary, so a new bundle can enter every tick. -/
theorem div_latency (st : DivState) (i1 i2 i3 i4 : DivInput)
    (hv : i1.valid = true) (hc1 : i1.clear = false) (hc2 : i2.clear = false)
    (hc3 : i3.clear = false) (hc4 : i4.clear = false) :
    (divOutput (divStep (divStep (divStep (divStep st i1) i2) i3) i4) false).valid = true ∧
    (divOutput (divStep (divStep (divStep (divStep st i1) i2) i3) i4) false).robIndex =
      i1.robIndex ∧
    (divOutput (divStep (divStep (divStep (divStep st i1) i2) i3) i4) false).pcResult =
      (i1.pcAddr + 4) % 2 ^ 32 ∧
    (∀ j : DivInput, j.clear = false →
      divOutput (divStep st j) i2.clear = divOutput (divStep st i1) i2.clear ∧
      divOutput (divStep (divStep st j) i2) i3.clear =
        divOutput (divStep (divStep st i1) i2) i3.clear ∧
      divOutput (divStep (divStep (divStep st j) i2) i3) i4.clear =
        divOutput (divStep (divStep (divStep st i1) i2) i3) i4.clear) := by
  obtain ⟨h4v, h4⟩ := divStep4_stage4 st i1 i2 i3 i4 hv hc1 hc2 hc3 hc4
  obtain ⟨-, -, -, hGa, hGrob, -, -, -, -⟩ := divStage16_twice (divStage1 i1)
  refine ⟨by simp [divOutput, h4v], ?_, ?_, ?_⟩
  · simp only [divOutput, h4, divStage4Calc]
    rw [hGrob]
    simp [divStage1]
  · simp only [divOutput, h4, divStage4Calc]
    rw [hGa]
    simp [divStage1]
  · intro j hj
    refine ⟨?_, ?_, ?_⟩ <;> simp [divStep, divOutput, hj, hc1]

/-- A signed `-7 / 3` bundle for the C1 witness. -/
def divW1 : DivInput := ⟨true, 2, 0xFFFFFFF9, 3, 0, 12, false, true, true, false⟩

/-- Witness for C1: instantiating `div_round_trip` at the signed pair
`-7 / 3` starting from the reset state. -/
theorem div_round_trip_witness :
    (divW1.valid = true ∧ divW1.clear = false ∧ divNop.clear = false ∧
      divW1.aluA < 2 ^ 32 ∧ divW1.aluB < 2 ^ 32 ∧ divW1.rs1Sign = true ∧
      divW1.rs2Sign = true ∧ divW1.aluB ≠ 0 ∧
      ¬(divW1.aluA = 2 ^ 31 ∧ divW1.aluB = 2 ^ 32 - 1)) ∧
    (∃ q r : Nat, q < 2 ^ 32 ∧ r < 2 ^ 32 ∧
      toSigned divW1.aluA = toSigned q * toSigned divW1.aluB + toSigned r ∧
      (toSigned r).natAbs < (toSigned divW1.aluB).natAbs ∧
      (toSigned r = 0 ∨ 0 < toSigned r ∧ 0 < toSigned divW1.aluA ∨
        toSigned r < 0 ∧ toSigned divW1.aluA < 0) ∧
      (divOutput (divStep (divStep (divStep (divStep divInit divW1) divNop) divNop) divNop)
          false).result =
        if divW1.getRemainder then r else q) :=
  ⟨⟨rfl, rfl, rfl, by decide, by decide, rfl, rfl, by decide, by decide⟩,
    (div_round_trip divInit divW1 divNop divNop divNop rfl rfl rfl rfl rfl
      (by decide) (by decide)).2.2 rfl rfl (by decide) (by decide)⟩

/-- Witness for C7: instantiating `div_latency` at the same concrete bundle. -/
theorem div_latency_witness :
    (divW1.valid = true ∧ divW1.clear = false ∧ divNop.clear = false) ∧
    (divOutput (divStep (divStep (divStep (divStep divInit divW1) divNop) divNop) divNop)
        false).valid = true ∧
    (divOutput (divStep (divStep (divStep (divStep divInit divW1) divNop) divNop) divNop)
        false).robIndex = divW1.robIndex ∧
    (divOutput (divStep (divStep (divStep (divStep divInit divW1) divNop) divNop) divNop)
        false).pcResult = (divW1.pcAddr + 4) % 2 ^ 32 ∧
    (∀ j : DivInput, j.clear = false →
      divOutput (divStep divInit j) divNop.clear =
        divOutput (divStep divInit divW1) divNop.clear ∧
      divOutput (divStep (divStep divInit j) divNop) divNop.clear =
        divOutput (divStep (divStep divInit divW1) divNop) divNop.clear ∧
      divOutput (divStep (divStep (divStep divInit j) divNop) divNop) divNop.clear =
        divOutput (divStep (divStep (divStep divInit divW1) divNop) divNop) divNop.clear) :=
  ⟨⟨rfl, rfl, rfl⟩, div_latency divInit divW1 divNop divNop divNop rfl rfl rfl rfl rfl⟩

/-! ### Reservation station, from RS.build (src/src/RS.py)

Entries are indexed by `Fin 8` (`RS_SIZE = 8`); the entry index is the ROB
index of the held instruction.  Register reads observe the previous tick's
state; the committed next state applies the tick's writes in program order
(allocation, then issue deallocation, then wake-up, then the clear loop),
with the last write to a register winning.
-/

/-- Modelled from the spec: the decoder signal bundle of section 3
(`decoder_signals` lives in `instruction.py`, which is not part of `src/`).
Only the fields the RS and LSQ read are modelled; the purely pass-through
branch/link/multiplier metadata (`cond`, `flip`, `link_pc`, `is_jalr`,
`get_high_bit`, `rs1_sign`, `rs2_sign`) is omitted because no claim mentions
it. -/
structure DecoderSignals where
  rs1 : Nat
  rs1Valid : Bool
  rs2 : Nat
  rs2Valid : Bool
  imm : Nat
  immValid : Bool
  alu : Nat
  isBranch : Bool
  memory0 : Bool
  memory1 : Bool
deriving DecidableEq

/-- Modelled from the spec: `RV32I_ALU` is a one-hot opcode vector with a
distinguished `ALU_MUL` position (`instruction.py` is not in `src/`); the
claims only compare `alu_type` against this single constant, so its concrete
bit position is immaterial and fixed at 4 here. -/
def ALU_MUL_ONEHOT : Nat := 2 ^ 4

/-- One RS entry's registers. -/
structure RSEntry where
  robIndex : Nat
  rs1 : Nat
  rs1Value : Nat
  hasRs1 : Bool
  rs1Recorder : Nat
  hasRs1Recorder : Bool
  rs2 : Nat
  rs2Value : Nat
  hasRs2 : Bool
  rs2Recorder : Nat
  hasRs2Recorder : Bool
  imm : Nat
  hasImm : Bool
  aluType : Nat
  isBranch : Bool
  addr : Nat
deriving DecidableEq

/-- All RS registers. -/
structure RSState where
  allocated : Fin 8 → Bool
  entry : Fin 8 → RSEntry

/-- The RS ports popped each tick, plus the global `clear_signal_array`
line. -/
structure RSInput where
  rsWrite : Bool
  rsModifyRecorder : Bool
  robIndex : Fin 8
  signals : DecoderSignals
  rs1Value : Nat
  rs1Recorder : Nat
  rs1HasRecorder : Bool
  rs2Value : Nat
  rs2Recorder : Nat
  rs2HasRecorder : Bool
  addr : Nat
  rsModifyRd : Nat
  rsRecorder : Nat
  rsModifyValue : Nat
  clear : Bool

/-- The rs1 coincidence mux (RS.py lines 91-93): an operand arriving while
its producer broadcasts on the same tick is stored already woken. -/
def rsFwd1 (inp : RSInput) : Bool × Nat :=
  let c := inp.rs1HasRecorder && (inp.rs1Recorder == inp.rsRecorder) && inp.rsModifyRecorder
  (if c then false else inp.rs1HasRecorder, if c then inp.rsModifyValue else inp.rs1Value)

/-- The rs2 coincidence mux (RS.py lines 95-97). -/
def rsFwd2 (inp : RSInput) : Bool × Nat :=
  let c := inp.rs2HasRecorder && (inp.rs2Recorder == inp.rsRecorder) && inp.rsModifyRecorder
  (if c then false else inp.rs2HasRecorder, if c then inp.rsModifyValue else inp.rs2Value)

/-- The entry written by an allocation (RS.py lines 99-123); note
`rob_index_array[rob_index] = rob_index`. -/
def rsAllocEntry (inp : RSInput) : RSEntry :=
  { robIndex := (inp.robIndex : Nat)
    rs1 := inp.signals.rs1
    rs1Value := (rsFwd1 inp).2
    hasRs1 := inp.signals.rs1Valid
    rs1Recorder := inp.rs1Recorder
    hasRs1Recorder := (rsFwd1 inp).1
    rs2 := inp.signals.rs2
    rs2Value := (rsFwd2 inp).2
    hasRs2 := inp.signals.rs2Valid
    rs2Recorder := inp.rs2Recorder
    hasRs2Recorder := (rsFwd2 inp).1
    imm := inp.signals.imm
    hasImm := inp.signals.immValid
    aluType := inp.signals.alu
    isBranch := inp.signals.isBranch
    addr := inp.addr }

/-- Candidate predicate for the scalar-ALU port (RS.py lines 130-133). -/
def rsReadyAlu (st : RSState) (i : Fin 8) : Bool :=
  let rs1Ok := (!(st.entry i).hasRs1) ||
    ((st.entry i).hasRs1 && !(st.entry i).hasRs1Recorder)
  let rs2Ok := (!(st.entry i).hasRs2) ||
    ((st.entry i).hasRs2 && !(st.entry i).hasRs2Recorder)
  st.allocated i && rs1Ok && rs2Ok && !((st.entry i).aluType == ALU_MUL_ONEHOT)

/-- Candidate predicate for the multiplier port (RS.py line 134). -/
def rsReadyMul (st : RSState) (i : Fin 8) : Bool :=
  let rs1Ok := (!(st.entry i).hasRs1) ||
    ((st.entry i).hasRs1 && !(st.entry i).hasRs1Recorder)
  let rs2Ok := (!(st.entry i).hasRs2) ||
    ((st.entry i).hasRs2 && !(st.entry i).hasRs2Recorder)
  st.allocated i && rs1Ok && rs2Ok && ((st.entry i).aluType == ALU_MUL_ONEHOT)

/-- Loop body of the selection scan (RS.py lines 135-138):
`send_index = valid.select(i, send_index); send = valid.select(1, send)`. -/
def selStep (p : Fin 8 → Bool) (a : Fin 8 × Bool) (i : Fin 8) : Fin 8 × Bool :=
  (if p i then i else a.1, if p i then true else a.2)

/-- The selection scan over indices `0..7` starting from `(0, 0)`; the last
index with `p` wins. -/
def selectLast (p : Fin 8 → Bool) : Fin 8 × Bool :=
  (List.finRange 8).foldl (selStep p) (0, false)

set_option maxRecDepth 10000 in
/-- The selection scan fires iff some entry qualifies, and then returns the
highest qualifying index. -/
theorem selectLast_spec : ∀ p : Fin 8 → Bool,
    ((selectLast p).2 = true ↔ ∃ i, p i = true) ∧
    ((selectLast p).2 = true →
      p (selectLast p).1 = true ∧ ∀ j, p j = true → j ≤ (selectLast p).1) := by
  decide

/-- Operand bundle sent to the scalar ALU (`alu.async_called`,
RS.py lines 163-177; the pass-through branch metadata is omitted). -/
structure RSAluCall where
  valid : Bool
  robIndex : Nat
  a : Nat
  b : Nat
  aluA : Nat
  aluB : Nat
  pcAddr : Nat

/-- Operand bundle sent to the multiplier (`mul_alu.async_called`,
RS.py lines 179-190; multiplier modifiers omitted). -/
structure RSMulCall where
  valid : Bool
  robIndex : Nat
  aluA : Nat
  aluB : Nat
  pcAddr : Nat

/-- Combinational RS outputs of one tick. -/
structure RSOut where
  aluIdx : Fin 8
  mulIdx : Fin 8
  alu : RSAluCall
  mul : RSMulCall

/-- One tick of the reservation station. -/
def rsStep (st : RSState) (inp : RSInput) : RSState × RSOut :=
  let sel := selectLast (rsReadyAlu st)
  let selMul := selectLast (rsReadyMul st)
  let sendIdx := sel.1
  let send := sel.2 && !inp.clear
  let sendMulIdx := selMul.1
  let sendMul := selMul.2 && !inp.clear
  let doAlloc := inp.rsWrite && !(st.allocated inp.robIndex)
  let e := st.entry sendIdx
  let a := if e.rs1 == 0 then 0 else e.rs1Value
  let b := if e.rs2 == 0 then 0 else e.rs2Value
  let aluA := if e.isBranch then e.addr else a
  let aluB := if e.hasImm then e.imm else b
  let em := st.entry sendMulIdx
  let mulA := if em.rs1 == 0 then 0 else em.rs1Value
  let mulB := if em.rs2 == 0 then 0 else em.rs2Value
  let allocated' : Fin 8 → Bool := fun i =>
    if inp.clear then false
    else if (send && i == sendIdx) || (sendMul && i == sendMulIdx) then false
    else if doAlloc && i == inp.robIndex then true
    else st.allocated i
  let entry' : Fin 8 → RSEntry := fun i =>
    let e0 := if doAlloc && i == inp.robIndex then rsAllocEntry inp else st.entry i
    let w1 := inp.rsModifyRecorder && st.allocated i && (st.entry i).hasRs1Recorder &&
      ((st.entry i).rs1Recorder == inp.rsRecorder)
    let e1 := if w1 then { e0 with hasRs1Recorder := false, rs1Value := inp.rsModifyValue }
      else e0
    let w2 := inp.rsModifyRecorder && st.allocated i && (st.entry i).hasRs2Recorder &&
      ((st.entry i).rs2Recorder == inp.rsRecorder)
    if w2 then { e1 with hasRs2Recorder := false, rs2Value := inp.rsModifyValue } else e1
  ({ allocated := allocated', entry := entry' },
   { aluIdx := sendIdx
     mulIdx := sendMulIdx
     alu := { valid := send, robIndex := e.robIndex, a := a, b := b,
              aluA := aluA, aluB := aluB, pcAddr := e.addr }
     mul := { valid := sendMul, robIndex := em.robIndex,
              aluA := mulA, aluB := mulB, pcAddr := em.addr } })

/-- C5: on a tick without clear, the scalar-ALU port fires iff some allocated
entry with both operands present and a non-MUL opcode exists, and then issues
the highest-index such entry (the source's `select` chain keeps the last
winner); the multiplier port does the same for `ALU_MUL` entries; each issued
entry has its allocated bit cleared at tick end; and a port with no
qualifying entry does not issue.  The first two conjuncts restate the
candidate predicates in the claim's operands-ready form. -/
theorem rs_selection (st : RSState) (inp : RSInput) (hclear : inp.clear = false) :
    (∀ i, rsReadyAlu st i =
      (st.allocated i && (!(st.entry i).hasRs1 || !(st.entry i).hasRs1Recorder) &&
        (!(st.entry i).hasRs2 || !(st.entry i).hasRs2Recorder) &&
        !((st.entry i).aluType == ALU_MUL_ONEHOT))) ∧
    (∀ i, rsReadyMul st i =
      (st.allocated i && (!(st.entry i).hasRs1 || !(st.entry i).hasRs1Recorder) &&
        (!(st.entry i).hasRs2 || !(st.entry i).hasRs2Recorder) &&
        ((st.entry i).aluType == ALU_MUL_ONEHOT))) ∧
    ((rsStep st inp).2.alu.valid = true ↔ ∃ i, rsReadyAlu st i = true) ∧
    ((rsStep st inp).2.alu.valid = true →
      rsReadyAlu st (rsStep st inp).2.aluIdx = true ∧
      (∀ j, rsReadyAlu st j = true → j ≤ (rsStep st inp).2.aluIdx) ∧
      (rsStep st inp).1.allocated (rsStep st inp).2.aluIdx = false) ∧
    ((rsStep st inp).2.mul.valid = true ↔ ∃ i, rsReadyMul st i = true) ∧
    ((rsStep st inp).2.mul.valid = true →
      rsReadyMul st (rsStep st inp).2.mulIdx = true ∧
      (∀ j, rsReadyMul st j = true → j ≤ (rsStep st inp).2.mulIdx) ∧
      (rsStep st inp).1.allocated (rsStep st inp).2.mulIdx = false) := by
  obtain ⟨haluIff, haluMax⟩ := selectLast_spec (rsReadyAlu st)
  obtain ⟨hmulIff, hmulMax⟩ := selectLast_spec (rsReadyMul st)
  have hvalidA : (rsStep st inp).2.alu.valid = (selectLast (rsReadyAlu st)).2 := by
    simp [rsStep, hclear]
  have hvalidM : (rsStep st inp).2.mul.valid = (selectLast (rsReadyMul st)).2 := by
    simp [rsStep, hclear]
  have hidxA : (rsStep st inp).2.aluIdx = (selectLast (rsReadyAlu st)).1 := by
    simp [rsStep]
  have hidxM : (rsStep st inp).2.mulIdx = (selectLast (rsReadyMul st)).1 := by
    simp [rsStep]
  refine ⟨?_, ?_, ?_, ?_, ?_, ?_⟩
  · intro i
    unfold rsReadyAlu
    cases h1 : (st.entry i).hasRs1 <;> cases h2 : (st.entry i).hasRs2 <;> simp
  · intro i
    unfold rsReadyMul
    cases h1 : (st.entry i).hasRs1 <;> cases h2 : (st.entry i).hasRs2 <;> simp
  · rw [hvalidA]
    exact haluIff
  · intro hs
    rw [hvalidA] at hs
    obtain ⟨hp, hmax⟩ := haluMax hs
    refine ⟨by rw [hidxA]; exact hp, by rw [hidxA]; exact hmax, ?_⟩
    rw [hidxA]
    simp [rsStep, hclear, hs]
  · rw [hvalidM]
    exact hmulIff
  · intro hs
    rw [hvalidM] at hs
    obtain ⟨hp, hmax⟩ := hmulMax hs
    refine ⟨by rw [hidxM]; exact hp, by rw [hidxM]; exact hmax, ?_⟩
    rw [hidxM]
    simp [rsStep, hclear, hs]

/-- C9: the scalar-ALU operand bundle applies register-zero hardwiring to
both source values, substitutes the entry's `pc` for `alu_a` on branches and
the immediate for `alu_b` when the opcode carries one. -/
theorem rs_alu_operands (st : RSState) (inp : RSInput) :
    (rsStep st inp).2.alu.valid = true →
    (rsStep st inp).2.alu.a =
      (if (st.entry (rsStep st inp).2.aluIdx).rs1 = 0 then 0
       else (st.entry (rsStep st inp).2.aluIdx).rs1Value) ∧
    (rsStep st inp).2.alu.b =
      (if (st.entry (rsStep st inp).2.aluIdx).rs2 = 0 then 0
       else (st.entry (rsStep st inp).2.aluIdx).rs2Value) ∧
    (rsStep st inp).2.alu.aluA =
      (if (st.entry (rsStep st inp).2.aluIdx).isBranch = true
       then (st.entry (rsStep st inp).2.aluIdx).addr
       else (rsStep st inp).2.alu.a) ∧
    (rsStep st inp).2.alu.aluB =
      (if (st.entry (rsStep st inp).2.aluIdx).hasImm = true
       then (st.entry (rsStep st inp).2.aluIdx).imm
       else (rsStep st inp).2.alu.b) := by
  intro _
  refine ⟨?_, ?_, ?_, ?_⟩ <;> simp [rsStep, beq_iff_eq]

/-! ### Load/store queue, from LSQ.build (src/lsq.py)

`head`, `tail` and `lsq_size` are `Int(32)` registers in the source; they are
modelled as `Int` with the explicit 32-bit two's-complement wrap `i32` at
every arithmetic step.  Entry indices are the low three bits of the
pointers. -/

/-- 32-bit two's-complement wraparound of an `Int(32)` arithmetic result. -/
def i32 (x : Int) : Int := (x + 2 ^ 31) % 2 ^ 32 - 2 ^ 31

/-- Low three bits of a pointer (`.bitcast(Bits(32))[0:2]`). -/
def idx3 (x : Int) : Fin 8 := ⟨(x % 8).toNat, by omega⟩

/-- One LSQ entry's registers. -/
structure LSQEntry where
  robIndex : Nat
  isLoad : Bool
  isStore : Bool
  rs1 : Nat
  rs1Value : Nat
  hasRs1 : Bool
  rs1Recorder : Nat
  hasRs1Recorder : Bool
  rs2 : Nat
  rs2Value : Nat
  hasRs2 : Bool
  rs2Recorder : Nat
  hasRs2Recorder : Bool
  imm : Nat
  addr : Nat
deriving DecidableEq

/-- All LSQ registers. -/
structure LSQState where
  head : Int
  tail : Int
  size : Int
  allocated : Fin 8 → Bool
  entry : Fin 8 → LSQEntry
  ready : Fin 8 → Bool

/-- The LSQ ports popped each tick plus the global flush line
(`clear_signal_array`). -/
structure LSQInput where
  lsqWrite : Bool
  lsqModifyRecorder : Bool
  robIndex : Nat
  signals : DecoderSignals
  rs1Value : Nat
  rs1Recorder : Nat
  rs1HasRecorder : Bool
  rs2Value : Nat
  rs2Recorder : Nat
  rs2HasRecorder : Bool
  addr : Nat
  lsqModifyRd : Nat
  lsqRecorder : Nat
  lsqModifyValue : Nat
  robHeadIndex : Nat
  clear : Bool

/-- The rs1 coincidence mux (lsq.py lines 104-106). -/
def lsqFwd1 (inp : LSQInput) : Bool × Nat :=
  let c := inp.rs1HasRecorder && (inp.rs1Recorder == inp.lsqRecorder) && inp.lsqModifyRecorder
  (if c then false else inp.rs1HasRecorder, if c then inp.lsqModifyValue else inp.rs1Value)

/-- The rs2 coincidence mux (lsq.py lines 108-110). -/
def lsqFwd2 (inp : LSQInput) : Bool × Nat :=
  let c := inp.rs2HasRecorder && (inp.rs2Recorder == inp.lsqRecorder) && inp.lsqModifyRecorder
  (if c then false else inp.rs2HasRecorder, if c then inp.lsqModifyValue else inp.rs2Value)

/-- The entry written at `tail` on an allocation (lsq.py lines 133-152). -/
def lsqAllocEntry (inp : LSQInput) : LSQEntry :=
  { robIndex := inp.robIndex
    isLoad := inp.signals.memory0
    isStore := inp.signals.memory1
    rs1 := inp.signals.rs1
    rs1Value := (lsqFwd1 inp).2
    hasRs1 := inp.signals.rs1Valid
    rs1Recorder := inp.rs1Recorder
    hasRs1Recorder := (lsqFwd1 inp).1
    rs2 := inp.signals.rs2
    rs2Value := (lsqFwd2 inp).2
    hasRs2 := inp.signals.rs2Valid
    rs2Recorder := inp.rs2Recorder
    hasRs2Recorder := (lsqFwd2 inp).1
    imm := inp.signals.imm
    addr := inp.addr }

/-- `write_valid` (lsq.py lines 117, 126-132): a write with the flush line
low and the queue not full, where `lsq_full` is `(size + 1 == 8)` computed
from the previous tick's size alone. -/
def lsqWriteValid (st : LSQState) (inp : LSQInput) : Bool :=
  inp.lsqWrite && !inp.clear && !(i32 (st.size + 1) == 8)

/-- `execute_valid` (lsq.py lines 176-181): the head entry must be allocated
and ready, the flush line low, and a store must sit at the ROB head. -/
def lsqExecuteValid (st : LSQState) (inp : LSQInput) : Bool :=
  let headIdx := idx3 st.head
  let isStore := (st.entry headIdx).isStore
  let conditionMet := !isStore ||
    (isStore && ((st.entry headIdx).robIndex == inp.robHeadIndex))
  st.allocated headIdx && st.ready headIdx && !inp.clear && conditionMet

/-- Combinational LSQ outputs of one tick (retirement channel plus the two
issue strobes). -/
structure LSQOut where
  writeValid : Bool
  executeValid : Bool
  robIndexRet : Nat
  pcResult : Nat
  signal : Bool

/-- One tick of the load/store queue.  Writes commit in program order:
allocation at `tail`, then the head issue, then the wake-up loop (whose
conditions read the previous tick's registers), then the clear branch, then
the size update. -/
def lsqStep (st : LSQState) (inp : LSQInput) : LSQState × LSQOut :=
  let headIdx := idx3 st.head
  let tailIdx := idx3 st.tail
  let updatedTail0 := i32 (st.tail + 1)
  let updatedTail := if updatedTail0 == 8 then 0 else updatedTail0
  let writeValid := lsqWriteValid st inp
  let executeValid := lsqExecuteValid st inp
  let modifyRecorder := inp.lsqModifyRecorder && !inp.clear
  let initReady := !((inp.signals.rs1Valid && (lsqFwd1 inp).1) ||
    (inp.signals.rs2Valid && (lsqFwd2 inp).1))
  let allocated' : Fin 8 → Bool := fun i =>
    if inp.clear then false
    else if executeValid && i == headIdx then false
    else if writeValid && i == tailIdx then true
    else st.allocated i
  let entry' : Fin 8 → LSQEntry := fun i =>
    let e0 := if writeValid && i == tailIdx then lsqAllocEntry inp else st.entry i
    let m1 := modifyRecorder && st.allocated i && (st.entry i).hasRs1Recorder &&
      ((st.entry i).rs1Recorder == inp.lsqRecorder)
    let e1 := if m1 then { e0 with hasRs1Recorder := false, rs1Value := inp.lsqModifyValue }
      else e0
    let m2 := modifyRecorder && st.allocated i && (st.entry i).hasRs2Recorder &&
      ((st.entry i).rs2Recorder == inp.lsqRecorder)
    if m2 then { e1 with hasRs2Recorder := false, rs2Value := inp.lsqModifyValue } else e1
  let ready' : Fin 8 → Bool := fun i =>
    let r0 := if writeValid && i == tailIdx then initReady else st.ready i
    let m1 := modifyRecorder && st.allocated i && (st.entry i).hasRs1Recorder &&
      ((st.entry i).rs1Recorder == inp.lsqRecorder)
    let m2 := modifyRecorder && st.allocated i && (st.entry i).hasRs2Recorder &&
      ((st.entry i).rs2Recorder == inp.lsqRecorder)
    if modifyRecorder && !(writeValid && st.tail == (i : Nat)) then
      !(((st.entry i).hasRs1 && ((st.entry i).hasRs1Recorder && !m1)) ||
        ((st.entry i).hasRs2 && ((st.entry i).hasRs2Recorder && !m2)))
    else r0
  let head' : Int :=
    if inp.clear then 0
    else if executeValid then (if i32 (st.head + 1) == 8 then 0 else i32 (st.head + 1))
    else st.head
  let tail' : Int :=
    if inp.clear then 0
    else if writeValid then updatedTail
    else st.tail
  let size' : Int :=
    if inp.clear then 0
    else i32 (i32 (st.size + (if writeValid then 1 else 0)) -
      (if executeValid then 1 else 0))
  ({ head := head', tail := tail', size := size',
     allocated := allocated', entry := entry', ready := ready' },
   { writeValid := writeValid
     executeValid := executeValid
     robIndexRet := (st.entry headIdx).robIndex
     pcResult := ((st.entry headIdx).addr + 4) % 2 ^ 32
     signal := executeValid })

/-- C4: each tick the LSQ considers only the head entry; it issues exactly
when the head is allocated and ready, the flush line is low, and either it is
not a store or its ROB index equals `rob_head_index`; an issuing store
therefore sits at the ROB head, the issued head entry is deallocated, and no
other allocated entry is deallocated on a clear-free tick. -/
theorem lsq_issue_gate (st : LSQState) (inp : LSQInput) :
    ((lsqStep st inp).2.executeValid =
      (st.allocated (idx3 st.head) && st.ready (idx3 st.head) && !inp.clear &&
        (!(st.entry (idx3 st.head)).isStore ||
          ((st.entry (idx3 st.head)).robIndex == inp.robHeadIndex)))) ∧
    ((lsqStep st inp).2.executeValid = true →
      (st.entry (idx3 st.head)).isStore = true →
      (st.entry (idx3 st.head)).robIndex = inp.robHeadIndex) ∧
    ((lsqStep st inp).2.executeValid = true →
      (lsqStep st inp).1.allocated (idx3 st.head) = false) ∧
    (∀ i : Fin 8, i ≠ idx3 st.head → inp.clear = false → st.allocated i = true →
      (lsqStep st inp).1.allocated i = true) := by
  have hexec : (lsqStep st inp).2.executeValid = lsqExecuteValid st inp := by
    simp [lsqStep]
  refine ⟨?_, ?_, ?_, ?_⟩
  · rw [hexec]
    unfold lsqExecuteValid
    cases h : (st.entry (idx3 st.head)).isStore <;> simp [h]
  · intro h hs
    rw [hexec] at h
    simp only [lsqExecuteValid] at h
    rw [hs] at h
    simp only [Bool.not_true, Bool.false_or, Bool.true_and, Bool.and_eq_true,
      beq_iff_eq] at h
    exact h.2
  · intro h
    rw [hexec] at h
    simp [lsqStep, h]
  · intro i hne hcl hal
    have hbne : (i == idx3 st.head) = false := by
      simp [hne]
    simp only [lsqStep, hcl, hbne, Bool.and_false, Bool.false_eq_true, if_false,
      Bool.if_false_left]
    by_cases hw : (lsqWriteValid st inp && i == idx3 st.tail) = true
    · simp [hw]
    · simp only [Bool.not_eq_true] at hw
      simp [hw, hal]

/-- Decoder bundle with all fields zero (for concrete instances). -/
def sig0 : DecoderSignals := ⟨0, false, 0, false, 0, false, 0, false, false, false⟩

/-- LSQ entry waiting on producer tag 2 for rs1. -/
def lsqCexEntry : LSQEntry :=
  ⟨0, false, false, 0, 0, true, 2, true, 0, 0, false, 0, false, 0, 0⟩

/-- A state whose entry 0 is allocated and waiting on tag 2. -/
def lsqCexSt : LSQState :=
  { head := 0, tail := 1, size := 1,
    allocated := fun i => i == 0,
    entry := fun _ => lsqCexEntry,
    ready := fun _ => false }

/-- A tick that broadcasts tag 2 while the flush line is raised. -/
def lsqCexInp : LSQInput :=
  { lsqWrite := false, lsqModifyRecorder := true, robIndex := 0, signals := sig0,
    rs1Value := 0, rs1Recorder := 0, rs1HasRecorder := false,
    rs2Value := 0, rs2Recorder := 0, rs2HasRecorder := false,
    addr := 0, lsqModifyRd := 0, lsqRecorder := 2, lsqModifyValue := 0xAB,
    robHeadIndex := 0, clear := true }

/-- C3 counterexample: on a tick with `clear = 1` the LSQ masks the broadcast
(`lsq_modify_recorder & ~clear`, lsq.py line 118), so an allocated entry
waiting on the broadcast tag keeps `has_rs1_recorder = 1` and its stale value
at tick end, contradicting the claim's unconditional wake-up. -/
theorem wakeup_law_cex :
    lsqCexInp.lsqModifyRecorder = true ∧
    lsqCexSt.allocated 0 = true ∧
    (lsqCexSt.entry 0).hasRs1Recorder = true ∧
    (lsqCexSt.entry 0).rs1Recorder = lsqCexInp.lsqRecorder ∧
    ¬(((lsqStep lsqCexSt lsqCexInp).1.entry 0).hasRs1Recorder = false ∧
      ((lsqStep lsqCexSt lsqCexInp).1.entry 0).rs1Value = lsqCexInp.lsqModifyValue) := by
  decide

/-- C3 (amended): whenever the forwarding broadcast is valid with tag `T`,
every allocated RS entry waiting on `T` is woken (flag cleared, value
captured) — even under `clear`, since the RS does not mask its broadcast —
and an entry allocated on the same tick arriving with recorder `T` is stored
already woken; the same holds for the LSQ on every tick with `clear = 0`
(on a clear tick the LSQ suppresses the broadcast, see the counterexample). -/
theorem wakeup_law :
    (∀ (st : RSState) (inp : RSInput), inp.rsModifyRecorder = true →
      (∀ i, st.allocated i = true → (st.entry i).hasRs1Recorder = true →
        (st.entry i).rs1Recorder = inp.rsRecorder →
        ((rsStep st inp).1.entry i).hasRs1Recorder = false ∧
        ((rsStep st inp).1.entry i).rs1Value = inp.rsModifyValue) ∧
      (∀ i, st.allocated i = true → (st.entry i).hasRs2Recorder = true →
        (st.entry i).rs2Recorder = inp.rsRecorder →
        ((rsStep st inp).1.entry i).hasRs2Recorder = false ∧
        ((rsStep st inp).1.entry i).rs2Value = inp.rsModifyValue) ∧
      (inp.rsWrite = true → st.allocated inp.robIndex = false →
        inp.rs1HasRecorder = true → inp.rs1Recorder = inp.rsRecorder →
        ((rsStep st inp).1.entry inp.robIndex).hasRs1Recorder = false ∧
        ((rsStep st inp).1.entry inp.robIndex).rs1Value = inp.rsModifyValue) ∧
      (inp.rsWrite = true → st.allocated inp.robIndex = false →
        inp.rs2HasRecorder = true → inp.rs2Recorder = inp.rsRecorder →
        ((rsStep st inp).1.entry inp.robIndex).hasRs2Recorder = false ∧
        ((rsStep st inp).1.entry inp.robIndex).rs2Value = inp.rsModifyValue)) ∧
    (∀ (st : LSQState) (inp : LSQInput), inp.clear = false →
      inp.lsqModifyRecorder = true →
      (∀ i, st.allocated i = true → (st.entry i).hasRs1Recorder = true →
        (st.entry i).rs1Recorder = inp.lsqRecorder →
        ((lsqStep st inp).1.entry i).hasRs1Recorder = false ∧
        ((lsqStep st inp).1.entry i).rs1Value = inp.lsqModifyValue) ∧
      (∀ i, st.allocated i = true → (st.entry i).hasRs2Recorder = true →
        (st.entry i).rs2Recorder = inp.lsqRecorder →
        ((lsqStep st inp).1.entry i).hasRs2Recorder = false ∧
        ((lsqStep st inp).1.entry i).rs2Value = inp.lsqModifyValue) ∧
      (lsqWriteValid st inp = true →
        inp.rs1HasRecorder = true → inp.rs1Recorder = inp.lsqRecorder →
        ((lsqStep st inp).1.entry (idx3 st.tail)).hasRs1Recorder = false ∧
        ((lsqStep st inp).1.entry (idx3 st.tail)).rs1Value = inp.lsqModifyValue) ∧
      (lsqWriteValid st inp = true →
        inp.rs2HasRecorder = true → inp.rs2Recorder = inp.lsqRecorder →
        ((lsqStep st inp).1.entry (idx3 st.tail)).hasRs2Recorder = false ∧
        ((lsqStep st inp).1.entry (idx3 st.tail)).rs2Value = inp.lsqModifyValue)) := by
  constructor
  · intro st inp hmod
    refine ⟨?_, ?_, ?_, ?_⟩
    · intro i hal hrec htag
      simp only [rsStep]
      simp [hmod, hal, hrec, htag]
      constructor <;> split <;> rfl
    · intro i hal hrec htag
      simp only [rsStep]
      simp [hmod, hal, hrec, htag]
    · intro hw hnal h1 htag
      simp only [rsStep]
      simp [hmod, hw, hnal, rsAllocEntry, rsFwd1, h1, htag]
    · intro hw hnal h2 htag
      simp only [rsStep]
      simp [hmod, hw, hnal, rsAllocEntry, rsFwd2, h2, htag]
  · intro st inp hcl hmod
    refine ⟨?_, ?_, ?_, ?_⟩
    · intro i hal hrec htag
      simp only [lsqStep]
      simp [hmod, hcl, hal, hrec, htag]
      constructor <;> split <;> rfl
    · intro i hal hrec htag
      simp only [lsqStep]
      simp [hmod, hcl, hal, hrec, htag]
    · intro hw h1 htag
      simp only [lsqStep]
      by_cases ha1 : st.allocated (idx3 st.tail) = true
      all_goals by_cases hb1 : (st.entry (idx3 st.tail)).hasRs1Recorder = true
      all_goals by_cases hb2 : (st.entry (idx3 st.tail)).hasRs2Recorder = true
      all_goals by_cases ht1 : (st.entry (idx3 st.tail)).rs1Recorder = inp.lsqRecorder
      all_goals by_cases ht2 : (st.entry (idx3 st.tail)).rs2Recorder = inp.lsqRecorder
      all_goals simp [hw, ha1, hb1, hb2, ht1, ht2, lsqAllocEntry, lsqFwd1, lsqFwd2,
        h1, htag, hmod, hcl]
    · intro hw h2 htag
      simp only [lsqStep]
      by_cases ha1 : st.allocated (idx3 st.tail) = true
      all_goals by_cases hb1 : (st.entry (idx3 st.tail)).hasRs1Recorder = true
      all_goals by_cases hb2 : (st.entry (idx3 st.tail)).hasRs2Recorder = true
      all_goals by_cases ht1 : (st.entry (idx3 st.tail)).rs1Recorder = inp.lsqRecorder
      all_goals by_cases ht2 : (st.entry (idx3 st.tail)).rs2Recorder = inp.lsqRecorder
      all_goals simp [hw, ha1, hb1, hb2, ht1, ht2, lsqAllocEntry, lsqFwd1, lsqFwd2,
        h2, htag, hmod, hcl]

/-! ### The LSQ ring invariant -/

/-- Number of allocated LSQ entries. -/
def lsqCount (st : LSQState) : Nat :=
  ((List.finRange 8).filter (fun i => st.allocated i)).length

/-- The circular-buffer invariant: pointers in range, `tail` a ring offset of
`size` past `head`, and the allocated entries exactly the ring
`[head, head + size)` modulo 8 (an index `i` is in the ring iff its ring
offset `(i + 8 - head) % 8` is below `size`). -/
def LSQInv (st : LSQState) : Prop :=
  0 ≤ st.size ∧ st.size ≤ 7 ∧ 0 ≤ st.head ∧ st.head < 8 ∧ 0 ≤ st.tail ∧ st.tail < 8 ∧
  st.tail.toNat = (st.head.toNat + st.size.toNat) % 8 ∧
  ∀ i : Fin 8, st.allocated i = true ↔ ((i : Nat) + 8 - st.head.toNat) % 8 < st.size.toNat

lemma i32_small {x : Int} (h1 : -(2 ^ 31) ≤ x) (h2 : x < 2 ^ 31) : i32 x = x := by
  unfold i32
  omega

lemma idx3_val {x : Int} (h1 : 0 ≤ x) (h2 : x < 8) : ((idx3 x : Fin 8) : Nat) = x.toNat := by
  have h3 : ((idx3 x : Fin 8) : Nat) = (x % 8).toNat := rfl
  rw [h3]
  omega

set_option maxRecDepth 4000 in
/-- A ring of `sz ≤ 8` offsets from any head covers exactly `sz` of the eight
indices. -/
lemma ring_count : ∀ (hd : Fin 8) (sz : Fin 9),
    ((List.finRange 8).filter
      (fun i : Fin 8 => decide ((i.val + 8 - hd.val) % 8 < sz.val))).length = sz.val := by
  decide

/-- Under the ring invariant the allocated-entry count equals `lsq_size`. -/
lemma lsqCount_eq_size {st : LSQState} (h : LSQInv st) : lsqCount st = st.size.toNat := by
  obtain ⟨h0, h7, hh0, hh8, ht0, ht8, htl, hiff⟩ := h
  unfold lsqCount
  have hfun : (fun i : Fin 8 => st.allocated i) =
      (fun i : Fin 8 => decide ((i.val + 8 - st.head.toNat) % 8 < st.size.toNat)) := by
    funext i
    have hi := hiff i
    cases hsi : st.allocated i
    · rw [hsi] at hi
      simp only [Bool.false_eq_true, false_iff] at hi
      simp [hi]
    · rw [hsi] at hi
      simp only [true_iff] at hi
      simp [hi]
  rw [hfun]
  have hr := ring_count ⟨st.head.toNat, by omega⟩ ⟨st.size.toNat, by omega⟩
  exact hr

lemma lsqStep_head (st : LSQState) (inp : LSQInput) (hcl : inp.clear = false)
    (hh0 : 0 ≤ st.head) (hh8 : st.head < 8) :
    (lsqStep st inp).1.head =
      if lsqExecuteValid st inp = true then (st.head + 1) % 8 else st.head := by
  simp only [lsqStep, hcl, Bool.false_eq_true, if_false]
  by_cases he : lsqExecuteValid st inp = true
  · rw [if_pos he, if_pos he, i32_small (by omega) (by omega)]
    by_cases h7 : st.head + 1 = 8
    · rw [if_pos (by simp [h7]), h7]
      norm_num
    · rw [if_neg (by simp [h7])]
      omega
  · rw [if_neg he, if_neg he]

lemma lsqStep_tail (st : LSQState) (inp : LSQInput) (hcl : inp.clear = false)
    (ht0 : 0 ≤ st.tail) (ht8 : st.tail < 8) :
    (lsqStep st inp).1.tail =
      if lsqWriteValid st inp = true then (st.tail + 1) % 8 else st.tail := by
  simp only [lsqStep, hcl, Bool.false_eq_true, if_false]
  by_cases hw : lsqWriteValid st inp = true
  · rw [if_pos hw, if_pos hw, i32_small (by omega) (by omega)]
    by_cases h7 : st.tail + 1 = 8
    · rw [if_pos (by simp [h7]), h7]
      norm_num
    · rw [if_neg (by simp [h7])]
      omega
  · rw [if_neg hw, if_neg hw]

lemma lsqStep_size (st : LSQState) (inp : LSQInput) (hcl : inp.clear = false)
    (h0 : 0 ≤ st.size) (h7 : st.size ≤ 7)
    (hsz : lsqExecuteValid st inp = true → 1 ≤ st.size)
    (hw7 : lsqWriteValid st inp = true → st.size ≠ 7) :
    (lsqStep st inp).1.size =
      st.size + (if lsqWriteValid st inp = true then 1 else 0) -
        (if lsqExecuteValid st inp = true then 1 else 0) := by
  simp only [lsqStep, hcl, Bool.false_eq_true, if_false]
  by_cases hw : lsqWriteValid st inp = true <;> by_cases he : lsqExecuteValid st inp = true
  · have hs1 := hsz he
    have hs7 := hw7 hw
    rw [if_pos hw, if_pos he]
    have e1 : i32 (st.size + 1) = st.size + 1 := i32_small (by omega) (by omega)
    rw [e1]
    have e2 : i32 (st.size + 1 - 1) = st.size + 1 - 1 := i32_small (by omega) (by omega)
    rw [e2]
  · have hs7 := hw7 hw
    rw [if_pos hw, if_neg he]
    have e1 : i32 (st.size + 1) = st.size + 1 := i32_small (by omega) (by omega)
    rw [e1]
    have e2 : i32 (st.size + 1 - 0) = st.size + 1 - 0 := i32_small (by omega) (by omega)
    rw [e2]
  · have hs1 := hsz he
    rw [if_neg hw, if_pos he]
    have e1 : i32 (st.size + 0) = st.size + 0 := i32_small (by omega) (by omega)
    rw [e1]
    have e2 : i32 (st.size + 0 - 1) = st.size + 0 - 1 := i32_small (by omega) (by omega)
    rw [e2]
  · rw [if_neg hw, if_neg he]
    have e1 : i32 (st.size + 0) = st.size + 0 := i32_small (by omega) (by omega)
    rw [e1]
    have e2 : i32 (st.size + 0 - 0) = st.size + 0 - 0 := i32_small (by omega) (by omega)
    rw [e2]

lemma lsqStep_allocated (st : LSQState) (inp : LSQInput) (hcl : inp.clear = false)
    (i : Fin 8) :
    (lsqStep st inp).1.allocated i =
      (if lsqExecuteValid st inp = true ∧ i = idx3 st.head then false
       else if lsqWriteValid st inp = true ∧ i = idx3 st.tail then true
       else st.allocated i) := by
  simp only [lsqStep, hcl, Bool.false_eq_true, if_false, Bool.and_eq_true, beq_iff_eq]

set_option maxHeartbeats 2000000 in
/-- The ring invariant is preserved by every tick of the LSQ. -/
lemma lsqInv_step (st : LSQState) (inp : LSQInput) (h : LSQInv st) :
    LSQInv (lsqStep st inp).1 := by
  obtain ⟨h0, h7, hh0, hh8, ht0, ht8, htl, hiff⟩ := h
  by_cases hcl : inp.clear = true
  · refine ⟨?_, ?_, ?_, ?_, ?_, ?_, ?_, ?_⟩ <;> simp [lsqStep, hcl]
  · have hcl' : inp.clear = false := by simpa using hcl
    have hidxh : ((idx3 st.head : Fin 8) : Nat) = st.head.toNat := idx3_val hh0 hh8
    have hidxt : ((idx3 st.tail : Fin 8) : Nat) = st.tail.toNat := idx3_val ht0 ht8
    have hw7 : lsqWriteValid st inp = true → st.size ≠ 7 := by
      intro hw
      simp only [lsqWriteValid, Bool.and_eq_true, Bool.not_eq_true',
        beq_eq_false_iff_ne] at hw
      have h2 := hw.2
      rw [i32_small (by omega) (by omega)] at h2
      omega
    have hsz1 : lsqExecuteValid st inp = true → 1 ≤ st.size := by
      intro he
      have ha : st.allocated (idx3 st.head) = true := by
        simp only [lsqExecuteValid, Bool.and_eq_true] at he
        exact he.1.1.1
      have hb := (hiff (idx3 st.head)).1 ha
      rw [hidxh] at hb
      omega
    have hhead := lsqStep_head st inp hcl' hh0 hh8
    have htail := lsqStep_tail st inp hcl' ht0 ht8
    have hsize := lsqStep_size st inp hcl' h0 h7 hsz1 hw7
    have halloc := fun i => lsqStep_allocated st inp hcl' i
    obtain ⟨nst, hG⟩ : ∃ nst, (lsqStep st inp).1 = nst := ⟨_, rfl⟩
    rw [hG] at hhead htail hsize ⊢
    simp only [hG] at halloc
    clear hG hcl
    by_cases hw : lsqWriteValid st inp = true <;> by_cases he : lsqExecuteValid st inp = true
    · -- allocation and issue on the same tick
      have hs1 := hsz1 he
      have hs7 := hw7 hw
      have hheadv : nst.head = (st.head + 1) % 8 := by
        rw [hhead, if_pos he]
      have htailv : nst.tail = (st.tail + 1) % 8 := by
        rw [htail, if_pos hw]
      have hsizev : nst.size = st.size := by
        rw [hsize, if_pos hw, if_pos he]
        omega
      clear hhead htail hsize hsz1 hw7 hcl'
      refine ⟨by omega, by omega, by omega, by omega, by omega, by omega, by omega, ?_⟩
      intro i
      rw [halloc i, hheadv, hsizev]
      clear halloc hheadv htailv hsizev
      by_cases hi1 : i = idx3 st.head
      · have hiH : (i : Nat) = st.head.toNat := by rw [hi1, hidxh]
        rw [if_pos ⟨he, hi1⟩]
        simp only [Bool.false_eq_true, false_iff]
        omega
      · have hiH : (i : Nat) ≠ st.head.toNat := by
          intro hcon
          exact hi1 (Fin.ext (by rw [hidxh]; exact hcon))
        rw [if_neg (fun hc => hi1 hc.2)]
        by_cases hi2 : i = idx3 st.tail
        · have hiT : (i : Nat) = st.tail.toNat := by rw [hi2, hidxt]
          rw [if_pos ⟨hw, hi2⟩]
          simp only [eq_self_iff_true, true_iff]
          omega
        · have hiT : (i : Nat) ≠ st.tail.toNat := by
            intro hcon
            exact hi2 (Fin.ext (by rw [hidxt]; exact hcon))
          rw [if_neg (fun hc => hi2 hc.2), hiff i]
          omega
    · -- allocation only
      have hs7 := hw7 hw
      have hheadv : nst.head = st.head := by
        rw [hhead, if_neg he]
      have htailv : nst.tail = (st.tail + 1) % 8 := by
        rw [htail, if_pos hw]
      have hsizev : nst.size = st.size + 1 := by
        rw [hsize, if_pos hw, if_neg he]
        omega
      clear hhead htail hsize hsz1 hw7 hcl'
      refine ⟨by omega, by omega, by omega, by omega, by omega, by omega, by omega, ?_⟩
      intro i
      rw [halloc i, hheadv, hsizev]
      clear halloc hheadv htailv hsizev
      rw [if_neg (fun hc => he hc.1)]
      by_cases hi2 : i = idx3 st.tail
      · have hiT : (i : Nat) = st.tail.toNat := by rw [hi2, hidxt]
        rw [if_pos ⟨hw, hi2⟩]
        simp only [eq_self_iff_true, true_iff]
        omega
      · have hiT : (i : Nat) ≠ st.tail.toNat := by
          intro hcon
          exact hi2 (Fin.ext (by rw [hidxt]; exact hcon))
        rw [if_neg (fun hc => hi2 hc.2), hiff i]
        omega
    · -- issue only
      have hs1 := hsz1 he
      have hheadv : nst.head = (st.head + 1) % 8 := by
        rw [hhead, if_pos he]
      have htailv : nst.tail = st.tail := by
        rw [htail, if_neg hw]
      have hsizev : nst.size = st.size - 1 := by
        rw [hsize, if_neg hw, if_pos he]
        omega
      clear hhead htail hsize hsz1 hw7 hcl'
      refine ⟨by omega, by omega, by omega, by omega, by omega, by omega, by omega, ?_⟩
      intro i
      rw [halloc i, hheadv, hsizev]
      clear halloc hheadv htailv hsizev
      by_cases hi1 : i = idx3 st.head
      · have hiH : (i : Nat) = st.head.toNat := by rw [hi1, hidxh]
        rw [if_pos ⟨he, hi1⟩]
        simp only [Bool.false_eq_true, false_iff]
        omega
      · have hiH : (i : Nat) ≠ st.head.toNat := by
          intro hcon
          exact hi1 (Fin.ext (by rw [hidxh]; exact hcon))
        rw [if_neg (fun hc => hi1 hc.2), if_neg (fun hc => hw hc.1), hiff i]
        omega
    · -- idle tick
      have hheadv : nst.head = st.head := by
        rw [hhead, if_neg he]
      have htailv : nst.tail = st.tail := by
        rw [htail, if_neg hw]
      have hsizev : nst.size = st.size := by
        rw [hsize, if_neg hw, if_neg he]
        omega
      clear hhead htail hsize hsz1 hw7 hcl'
      refine ⟨by omega, by omega, by omega, by omega, by omega, by omega, by omega, ?_⟩
      intro i
      rw [halloc i, hheadv, hsizev]
      clear halloc hheadv htailv hsizev
      rw [if_neg (fun hc => he hc.1), if_neg (fun hc => hw hc.1), hiff i]

/-! ### Concrete states and inputs for witness instances -/

/-- The empty RS entry (reset value of the entry registers). -/
def rsE0 : RSEntry :=
  ⟨0, 0, 0, false, 0, false, 0, 0, false, 0, false, 0, false, 0, false, 0⟩

/-- The empty reservation station. -/
def rs0 : RSState := ⟨fun _ => false, fun _ => rsE0⟩

/-- An idle RS input tick (no write, no broadcast, no clear). -/
def rsNopInp : RSInput :=
  ⟨false, false, 0, sig0, 0, 0, false, 0, 0, false, 0, 0, 0, 0, false⟩

/-- An RS entry with both operands present (`rs1 = 5`, value 77; `rs2 = 0`)
and a non-MUL opcode. -/
def rsWEntry : RSEntry :=
  { rsE0 with rs1 := 5, rs1Value := 77, rs2 := 0, rs2Value := 33, imm := 9 }

/-- A reservation station whose entry 0 is allocated and ready for the
scalar-ALU port. -/
def rsWSt : RSState := ⟨fun i => i == 0, fun _ => rsWEntry⟩

/-- An RS entry waiting on producer tag 2 for rs1. -/
def rsWkEntry : RSEntry :=
  { rsE0 with hasRs1 := true, hasRs1Recorder := true, rs1Recorder := 2 }

/-- A reservation station whose entry 0 waits on tag 2. -/
def rsWkSt : RSState := ⟨fun i => i == 0, fun _ => rsWkEntry⟩

/-- A tick broadcasting tag 2 with value 0xCD on the RS forwarding bus. -/
def rsWkInp : RSInput :=
  { rsNopInp with rsModifyRecorder := true, rsRecorder := 2, rsModifyValue := 0xCD }

/-- An RS tick with the flush line raised. -/
def rsClearInp : RSInput := { rsNopInp with clear := true }

/-- The empty LSQ entry (reset value of the entry registers). -/
def lsqE0 : LSQEntry :=
  ⟨0, false, false, 0, 0, false, 0, false, 0, 0, false, 0, false, 0, 0⟩

/-- The reset LSQ state (all registers zero). -/
def lsqInit : LSQState :=
  ⟨0, 0, 0, fun _ => false, fun _ => lsqE0, fun _ => false⟩

/-- An idle LSQ input tick. -/
def lsqNopInp : LSQInput :=
  ⟨false, false, 0, sig0, 0, 0, false, 0, 0, false, 0, 0, 0, 0, 0, false⟩

/-- An LSQ holding one ready load at the head. -/
def lsqRdySt : LSQState :=
  ⟨0, 1, 1, fun i => i == 0, fun _ => lsqE0, fun _ => true⟩

/-- A full LSQ: seven allocated entries, `head = 0`, `tail = size = 7`. -/
def lsqFullSt : LSQState :=
  ⟨0, 7, 7, fun i => !(i == 7), fun _ => lsqE0, fun _ => false⟩

/-- A tick requesting an allocation into the full LSQ. -/
def lsqFullInp : LSQInput := { lsqNopInp with lsqWrite := true }

/-- A divider tick with the flush line raised. -/
def divClearIn : DivInput := { divNop with clear := true }

/-! ### Flush, ring invariant and capacity -/

/-- C6: on any tick with `clear = 1`, the next state has every RS allocated
bit low, every LSQ allocated bit low with `head = tail = size = 0`, and all
four divider stage valid bits low; on the clear tick itself the RS issues
nothing on either port and the LSQ does not issue. -/
theorem flush_law (rst : RSState) (rinp : RSInput) (lst : LSQState) (linp : LSQInput)
    (dst : DivState) (dinp : DivInput)
    (hr : rinp.clear = true) (hl : linp.clear = true) (hd : dinp.clear = true) :
    (∀ i, (rsStep rst rinp).1.allocated i = false) ∧
    (rsStep rst rinp).2.alu.valid = false ∧
    (rsStep rst rinp).2.mul.valid = false ∧
    (∀ i, (lsqStep lst linp).1.allocated i = false) ∧
    (lsqStep lst linp).1.head = 0 ∧
    (lsqStep lst linp).1.tail = 0 ∧
    (lsqStep lst linp).1.size = 0 ∧
    (lsqStep lst linp).2.executeValid = false ∧
    (divStep dst dinp).stage1Valid = false ∧
    (divStep dst dinp).stage2Valid = false ∧
    (divStep dst dinp).stage3Valid = false ∧
    (divStep dst dinp).stage4Valid = false := by
  refine ⟨?_, ?_, ?_, ?_, ?_, ?_, ?_, ?_, ?_, ?_, ?_, ?_⟩ <;>
    simp [rsStep, lsqStep, divStep, lsqExecuteValid, hr, hl, hd]

/-- A closed instance of the flush law at the reset states. -/
theorem flush_law_witness :
    rsClearInp.clear = true ∧ lsqCexInp.clear = true ∧ divClearIn.clear = true ∧
    (∀ i, (rsStep rs0 rsClearInp).1.allocated i = false) :=
  ⟨rfl, rfl, rfl,
    (flush_law rs0 rsClearInp lsqInit lsqCexInp divInit divClearIn rfl rfl rfl).1⟩

/-- C8: under the ring invariant the number of allocated entries equals
`lsq_size`, the allocated set is exactly the ring from `head` (inclusive) to
`tail` (exclusive) modulo 8, and one tick of the LSQ — allocation, issue,
wake-up or clear — preserves the invariant. -/
theorem lsq_ring_invariant (st : LSQState) (inp : LSQInput) (h : LSQInv st) :
    lsqCount st = st.size.toNat ∧
    st.tail.toNat = (st.head.toNat + st.size.toNat) % 8 ∧
    (∀ i : Fin 8, st.allocated i = true ↔
      ((i : Nat) + 8 - st.head.toNat) % 8 < st.size.toNat) ∧
    LSQInv (lsqStep st inp).1 :=
  ⟨lsqCount_eq_size h, h.2.2.2.2.2.2.1, h.2.2.2.2.2.2.2, lsqInv_step st inp h⟩

/-- A closed instance of the ring invariant on a one-entry queue. -/
theorem lsq_ring_invariant_witness :
    LSQInv lsqRdySt ∧ lsqCount lsqRdySt = lsqRdySt.size.toNat :=
  ⟨by unfold LSQInv; decide,
    (lsq_ring_invariant lsqRdySt lsqNopInp (by unfold LSQInv; decide)).1⟩

/-- C10: the reset state satisfies the ring invariant, every invariant state
has at most 7 allocated entries and steps to an invariant state, the full
flag is computed from the previous size alone (`size + 1 == 8`), and at
`size = 7` a write request is dropped — no entry becomes allocated — even
when the head entry issues on that same tick. -/
theorem lsq_capacity (st : LSQState) (inp : LSQInput) (h : LSQInv st) :
    LSQInv lsqInit ∧
    lsqCount st ≤ 7 ∧
    LSQInv (lsqStep st inp).1 ∧
    lsqWriteValid st inp = (inp.lsqWrite && !inp.clear && !(i32 (st.size + 1) == 8)) ∧
    (st.size = 7 → lsqWriteValid st inp = false) ∧
    (st.size = 7 → inp.clear = false →
      ∀ i, (lsqStep st inp).1.allocated i = true → st.allocated i = true) := by
  have hwv7 : st.size = 7 → lsqWriteValid st inp = false := by
    intro hs
    unfold lsqWriteValid
    rw [hs]
    have h8 : (i32 (7 + 1) == 8) = true := by decide
    rw [h8]
    simp
  refine ⟨by unfold LSQInv; decide, ?_, lsqInv_step st inp h, rfl, hwv7, ?_⟩
  · rw [lsqCount_eq_size h]
    have h7 := h.2.1
    omega
  · intro hs hcl i hi
    have hwv := hwv7 hs
    rw [lsqStep_allocated st inp hcl i] at hi
    by_cases h1 : lsqExecuteValid st inp = true ∧ i = idx3 st.head
    · rw [if_pos h1] at hi
      cases hi
    · rw [if_neg h1] at hi
      have h2 : ¬(lsqWriteValid st inp = true ∧ i = idx3 st.tail) := by
        rw [hwv]
        simp
      rw [if_neg h2] at hi
      exact hi

/-- A closed instance of the capacity law: the full queue drops a write. -/
theorem lsq_capacity_witness :
    LSQInv lsqFullSt ∧ lsqWriteValid lsqFullSt lsqFullInp = false :=
  ⟨by unfold LSQInv; decide,
    (lsq_capacity lsqFullSt lsqFullInp (by unfold LSQInv; decide)).2.2.2.2.1 rfl⟩

set_option maxRecDepth 10000 in
/-- A closed instance of the wake-up law on the RS side. -/
theorem wakeup_law_witness :
    rsWkInp.rsModifyRecorder = true ∧
    rsWkSt.allocated 0 = true ∧
    (rsWkSt.entry 0).hasRs1Recorder = true ∧
    (rsWkSt.entry 0).rs1Recorder = rsWkInp.rsRecorder ∧
    ((rsStep rsWkSt rsWkInp).1.entry 0).hasRs1Recorder = false ∧
    ((rsStep rsWkSt rsWkInp).1.entry 0).rs1Value = rsWkInp.rsModifyValue := by
  refine ⟨rfl, by decide, rfl, rfl, ?_, ?_⟩
  · exact ((wakeup_law.1 rsWkSt rsWkInp rfl).1 0 (by decide) rfl rfl).1
  · exact ((wakeup_law.1 rsWkSt rsWkInp rfl).1 0 (by decide) rfl rfl).2

set_option maxRecDepth 10000 in
/-- A closed instance of the issue gate: a ready load at the head issues and
is deallocated. -/
theorem lsq_issue_gate_witness :
    (lsqStep lsqRdySt lsqNopInp).2.executeValid = true ∧
    (lsqStep lsqRdySt lsqNopInp).1.allocated (idx3 lsqRdySt.head) = false :=
  ⟨by decide, (lsq_issue_gate lsqRdySt lsqNopInp).2.2.1 (by decide)⟩

set_option maxRecDepth 10000 in
/-- A closed instance of the selection law on a clear-free tick. -/
theorem rs_selection_witness :
    rsNopInp.clear = false ∧
    ((rsStep rsWSt rsNopInp).2.alu.valid = true ↔ ∃ i, rsReadyAlu rsWSt i = true) :=
  ⟨rfl, (rs_selection rsWSt rsNopInp rfl).2.2.1⟩

set_option maxRecDepth 10000 in
/-- A closed instance of the operand muxing: `rs1 = 5` passes value 77. -/
theorem rs_alu_operands_witness :
    (rsStep rsWSt rsNopInp).2.alu.valid = true ∧
    (rsStep rsWSt rsNopInp).2.alu.a = 77 := by
  refine ⟨by decide, ?_⟩
  have h := (rs_alu_operands rsWSt rsNopInp (by decide)).1
  rw [h]
  decide

end RV32Core
